import Mathlib

/-!
Formal model of the incremental-png decoding pipeline (src/lib.rs).

The library is a three-layer incremental PNG decoder:
* `Dechunker` (module `dechunker`) splits a raw byte stream into
  `BeginChunk` / `Data` / `EndChunk` events;
* `StreamDecoder` (module `stream_decoder`) interprets those chunk events,
  validating structural rules and emitting `ImageHeader` / `ImageData` / `End`;
* `Inflater` (module `inflater`) feeds `ImageData` payloads through a
  streaming zlib decompressor (the external crate `miniz_oxide`) into a
  fixed-size output window.

Bytes are modelled as `Nat` (all real inputs are `u8`, and none of the code
performs wrapping arithmetic on byte values).  Mutation of `&mut self` is
modelled by returning the successor state alongside the result; every error
or panic return site returns the state exactly as it was at that return
site, so state changes performed before an early return would be visible.
The external decompressor is modelled abstractly (`mzStep`) as a
deterministic streaming machine parameterised by a pure decompression
function `f`, a per-call input consumption bound `K` and the output window
capacity `cap`.
-/

/-- Error enumeration of the library (src/lib.rs, `enum Error`). -/
inductive Error where
  | InvalidPngSignature
  | UnfinishedChunk
  | InvalidImageHeaderLength
  | NoImageHeader
  | InvalidDeflateStream
  | ChecksumMismatch
  | InvalidEndChunkSize
  | InvalidPaletteChunkSize
deriving DecidableEq, Repr

/-- Big-endian decoding of a byte list, `u32::from_be_bytes` on 4 bytes. -/
def beU32 (l : List Nat) : Nat := l.foldl (fun a b => a * 256 + b) 0

/-- Constant `PNG_SIGNATURE` from src/lib.rs. -/
def PNG_SIGNATURE : List Nat := [0x89, 0x50, 0x4E, 0x47, 0x0D, 0x0A, 0x1A, 0x0A]

/-- Constant `CHUNK_HEADER_SIZE` from src/lib.rs. -/
def CHUNK_HEADER_SIZE : Nat := 8

/-- Constant `CRC_SIZE` from src/lib.rs. -/
def CRC_SIZE : Nat := 4

/-- The `dechunker::State` enumeration: the scratch `heapless::Vec`s are
modelled as plain lists (their capacities are enforced by the `min`
computations in `update`, exactly as in the source). -/
inductive Dechunker.State where
  | pngSignature (pos : Nat)
  | chunkHeader (buf : List Nat)
  | inChunk (remaining : Nat)
  | crc (buf : List Nat)
deriving DecidableEq, Repr

/-- The `dechunker::Event` enumeration; `BeginChunk(ChunkHeader)` carries the
decoded length and 4-byte type tag. -/
inductive Dechunker.Event where
  | beginChunk (len : Nat) (type_ : List Nat)
  | data (bytes : List Nat)
  | endChunk
deriving DecidableEq, Repr

/-- Translation of `Dechunker::update` (src/lib.rs lines 90-149).  The
returned state is the value of `self.state` at the corresponding `return`
site (so error returns expose whether the state was mutated first). -/
def Dechunker.update : Dechunker.State → List Nat →
    Dechunker.State × Except Error (Nat × Option Dechunker.Event)
  | .pngSignature pos, input =>
    let n := min input.length (PNG_SIGNATURE.length - pos)
    if input.take n ≠ (PNG_SIGNATURE.drop pos).take n then
      (.pngSignature pos, .error .InvalidPngSignature)
    else if pos + n = PNG_SIGNATURE.length then
      (.chunkHeader [], .ok (n, none))
    else
      (.pngSignature (pos + n), .ok (n, none))
  | .chunkHeader buf, input =>
    let n := min input.length (CHUNK_HEADER_SIZE - buf.length)
    let buf' := buf ++ input.take n
    if buf'.length = CHUNK_HEADER_SIZE then
      let len := beU32 (buf'.take 4)
      let ty := (buf'.drop 4).take 4
      (.inChunk len, .ok (n, some (.beginChunk len ty)))
    else
      (.chunkHeader buf', .ok (n, none))
  | .inChunk remaining, input =>
    let n := min input.length remaining
    ((if remaining = n then .crc [] else .inChunk (remaining - n)),
      .ok (n, if n = 0 then none else some (.data (input.take n))))
  | .crc buf, input =>
    let n := min input.length (CRC_SIZE - buf.length)
    let buf' := buf ++ input.take n
    if buf'.length = CRC_SIZE then
      (.chunkHeader [], .ok (n, some .endChunk))
    else
      (.crc buf', .ok (n, none))

/-- Translation of `Dechunker::eof` (src/lib.rs lines 83-88). -/
def Dechunker.eof : Dechunker.State → Except Error Unit
  | .chunkHeader buf => if buf.isEmpty then .ok () else .error .UnfinishedChunk
  | _ => .error .UnfinishedChunk

/-- Initial dechunker state, `Dechunker::new`. -/
def Dechunker.new : Dechunker.State := .pngSignature 0

/-- The `Palette` struct (src/lib.rs lines 17-19); the `heapless::Vec<u8, 768>`
is modelled as a plain list (its capacity is enforced at the write sites). -/
structure Palette where
  data : List Nat
deriving DecidableEq, Repr

/-- Translation of `Palette::color_at` (src/lib.rs lines 22-30).  The
`try_into().unwrap()` on the 3-byte slice is modelled by the `Option`: the
conversion succeeds (`some`) exactly when the extracted slice has length 3,
and `none` stands for the panic of `unwrap`. -/
def Palette.color_at (p : Palette) (index : Nat) : Option (List Nat) :=
  if (index + 1) * 3 > p.data.length then
    some [0, 0, 0]
  else
    let s := (p.data.drop (index * 3)).take ((index + 1) * 3 - index * 3)
    if s.length = 3 then some s else none

/-- The IHDR payload, `stream_decoder::ImageHeader` (src/lib.rs 382-390). -/
structure ImageHeader where
  width : Nat
  height : Nat
  bit_depth : Nat
  colour_type : Nat
  compression_method : Nat
  filter_method : Nat
  interlace_method : Nat
deriving DecidableEq, Repr

/-- Constant `ImageHeader::SIZE`. -/
def ImageHeader.SIZE : Nat := 13

/-- Field-by-field decoding of the 13-byte IHDR payload, exactly as written
in the `EndChunk` arm of `State::IHDR` (src/lib.rs lines 479-487). -/
def decodeImageHeader (buf : List Nat) : ImageHeader :=
  { width := beU32 (buf.take 4)
  , height := beU32 ((buf.drop 4).take 4)
  , bit_depth := buf.getD 8 0
  , colour_type := buf.getD 9 0
  , compression_method := buf.getD 10 0
  , filter_method := buf.getD 11 0
  , interlace_method := buf.getD 12 0 }

/-- Chunk type tag constant `IHDR` (the bytes of `b"IHDR"`). -/
def IHDR : List Nat := [73, 72, 68, 82]

/-- Chunk type tag constant `PLTE` (the bytes of `b"PLTE"`). -/
def PLTE : List Nat := [80, 76, 84, 69]

/-- Chunk type tag constant `IDAT` (the bytes of `b"IDAT"`). -/
def IDAT : List Nat := [73, 68, 65, 84]

/-- Chunk type tag constant `IEND` (the bytes of `b"IEND"`). -/
def IEND : List Nat := [73, 69, 78, 68]

/-- The `stream_decoder::State` enumeration (src/lib.rs lines 364-372). -/
inductive StreamDecoder.State where
  | beforeChunk
  | ihdr (buf : List Nat)
  | plte
  | idat
  | ignoredChunk
  | iend
deriving DecidableEq, Repr

/-- The `StreamDecoder` struct: current state plus the accumulated palette. -/
structure StreamDecoder where
  state : StreamDecoder.State
  palette : Palette
deriving DecidableEq, Repr

/-- The `stream_decoder::Event` enumeration. -/
inductive StreamDecoder.Event where
  | imageHeader (h : ImageHeader)
  | imageData (bytes : List Nat)
  | End
deriving DecidableEq, Repr

/-- Result of one `update` call of the upper layers: an `Ok` pair of
(leftover event, output event), a library `Error`, or a Rust `panic!` /
failed `assert!` (which is not a value of the Rust return type and is
therefore modelled as a separate outcome). -/
inductive StepRes (L O : Type) where
  | ok (leftover : Option L) (out : Option O)
  | err (e : Error)
  | panicked
deriving DecidableEq

/-- Initial stream-decoder value, `StreamDecoder::new`. -/
def StreamDecoder.new : StreamDecoder := ⟨.beforeChunk, ⟨[]⟩⟩

/-- Translation of `StreamDecoder::update` (src/lib.rs lines 427-537).
The `BeginChunk` dispatch follows the source's match-arm order
(IHDR, IDAT, IEND, PLTE, wildcard).  `heapless` scratch-buffer overflow
(capacity 13 for the IHDR buffer, 768 for the palette) triggers the source's
`panic!`, modelled as `.panicked`.  The returned `StreamDecoder` is the value
of `self` at the corresponding return site. -/
def StreamDecoder.update (d : StreamDecoder) (input : Dechunker.Event) :
    StreamDecoder × StepRes Dechunker.Event StreamDecoder.Event :=
  match d.state, input with
  | .beforeChunk, .beginChunk len ty =>
    if ty = IHDR then
      if len ≠ ImageHeader.SIZE then (d, .err .InvalidImageHeaderLength)
      else ({ d with state := .ihdr [] }, .ok none none)
    else if ty = IDAT then
      ({ d with state := .idat }, .ok none none)
    else if ty = IEND then
      if len ≠ 0 then (d, .err .InvalidEndChunkSize)
      else ({ d with state := .iend }, .ok none none)
    else if ty = PLTE then
      if len % 3 ≠ 0 ∨ len > 256 * 3 then (d, .err .InvalidPaletteChunkSize)
      else ({ d with state := .plte }, .ok none none)
    else
      ({ d with state := .ignoredChunk }, .ok none none)
  | .beforeChunk, _ => (d, .panicked)
  | .ihdr buf, .data bytes =>
    if buf.length + bytes.length > ImageHeader.SIZE then (d, .panicked)
    else ({ d with state := .ihdr (buf ++ bytes) }, .ok none none)
  | .ihdr buf, .endChunk =>
    if buf.length = ImageHeader.SIZE then
      ({ d with state := .beforeChunk },
        .ok none (some (.imageHeader (decodeImageHeader buf))))
    else (d, .panicked)
  | .ihdr _, .beginChunk _ _ => (d, .panicked)
  | .plte, .data bytes =>
    if d.palette.data.length + bytes.length > 256 * 3 then (d, .panicked)
    else ({ d with palette := ⟨d.palette.data ++ bytes⟩ }, .ok none none)
  | .plte, .endChunk => ({ d with state := .beforeChunk }, .ok none none)
  | .plte, .beginChunk _ _ => (d, .panicked)
  | .idat, .data bytes => (d, .ok none (some (.imageData bytes)))
  | .idat, .endChunk => ({ d with state := .beforeChunk }, .ok none none)
  | .idat, .beginChunk _ _ => (d, .panicked)
  | .ignoredChunk, .data _ => (d, .ok none none)
  | .ignoredChunk, .endChunk => ({ d with state := .beforeChunk }, .ok none none)
  | .ignoredChunk, .beginChunk _ _ => (d, .panicked)
  | .iend, .data _ => (d, .panicked)
  | .iend, .endChunk => ({ d with state := .beforeChunk }, .ok none (some .End))
  | .iend, .beginChunk _ _ => (d, .panicked)

/-- The `inflater::Event` enumeration. -/
inductive Inflater.Event where
  | imageHeader (h : ImageHeader)
  | imageData (bytes : List Nat)
  | End
deriving DecidableEq, Repr

/-- Status of one `miniz_oxide::inflate::stream::inflate` call, as consumed
by `Inflater::update`: the `Ok(_)` statuses, the two error kinds mapped to
`InvalidDeflateStream`, the `Buf` error, and the remaining error kinds that
the source treats as unreachable panics. -/
inductive MZStatus where
  | success
  | errStream
  | errData
  | errBuf
  | errOther
deriving DecidableEq, Repr

/-- The `bytes_consumed` / `bytes_written` part of a miniz `StreamResult`. -/
structure InflateResult where
  status : MZStatus
  bytes_consumed : Nat
  bytes_written : Nat
deriving DecidableEq, Repr

/-- Success path of the `ImageData` arm of `Inflater::update` (src/lib.rs
lines 840-852): the leftover computation and the emitted
`ImageData(&self.output_buf[..bytes_written])`.  `output_buf` is the content
of the output window after the inflate call; the out-of-range slice panic of
`&self.output_buf[..bytes_written]` is modelled by the `.panicked` guard. -/
def Inflater.emitStep (output_buf input : List Nat) (result : InflateResult) :
    StepRes StreamDecoder.Event Inflater.Event :=
  if result.bytes_written > output_buf.length then .panicked
  else
    .ok
      (if result.bytes_consumed < input.length then
        some (.imageData (input.drop result.bytes_consumed))
      else if result.bytes_written = output_buf.length then
        some (.imageData [])
      else none)
      (some (.imageData (output_buf.take result.bytes_written)))

/-- The `ImageData` arm of `Inflater::update` (src/lib.rs lines 812-853)
after the inflate call returned `result`: the status dispatch (`Ok` accepted;
`Stream`/`Data` errors map to `InvalidDeflateStream`; `Buf` panics unless the
input was empty; the other error kinds panic), then `emitStep`. -/
def Inflater.handleImageData (output_buf input : List Nat)
    (result : InflateResult) : StepRes StreamDecoder.Event Inflater.Event :=
  match result.status with
  | .success => Inflater.emitStep output_buf input result
  | .errStream => .err .InvalidDeflateStream
  | .errData => .err .InvalidDeflateStream
  | .errBuf =>
    if input ≠ [] then .panicked else Inflater.emitStep output_buf input result
  | .errOther => .panicked

/-- Modelled decompressor state: the external `miniz_oxide InflateState` is
not part of this repository, so it is modelled abstractly as the sequence of
compressed bytes consumed so far plus the number of decompressed bytes
already emitted through the output window. -/
structure MZ where
  consumed : List Nat
  emitted : Nat
deriving DecidableEq, Repr

/-- Modelled `miniz_oxide::inflate::stream::inflate` call: with `f` the pure
decompression function, the step consumes at most `K` input bytes, makes the
decompressed bytes of everything consumed so far available, and writes at
most `cap` (the output window size) of the not-yet-emitted ones into the
window.  Returns the new state, the `StreamResult` and the window content. -/
def mzStep (f : List Nat → List Nat) (K cap : Nat) (s : MZ) (input : List Nat) :
    MZ × InflateResult × List Nat :=
  let n := min input.length K
  let c := s.consumed ++ input.take n
  let avail := (f c).length - s.emitted
  let w := min avail cap
  (⟨c, s.emitted + w⟩, ⟨.success, n, w⟩,
    ((f c).drop s.emitted).take w ++ List.replicate (cap - w) 0)

/-- Initial modelled decompressor state (`Inflater::new`). -/
def MZ.new : MZ := ⟨[], 0⟩

/-- Translation of `Inflater::update` (src/lib.rs lines 806-856) over the
modelled decompressor: `ImageHeader` and `End` pass through unchanged; an
`ImageData` event runs one modelled inflate step and then the source's
status/leftover/emit logic. -/
def Inflater.update (f : List Nat → List Nat) (K cap : Nat) (s : MZ)
    (input : StreamDecoder.Event) :
    MZ × StepRes StreamDecoder.Event Inflater.Event :=
  match input with
  | .imageHeader h => (s, .ok none (some (.imageHeader h)))
  | .imageData bytes =>
    let r := mzStep f K cap s bytes
    (r.1, Inflater.handleImageData r.2.2 bytes r.2.1)
  | .End => (s, .ok none (some .End))

/-- Driver-level failure: a library error, a modelled panic, or a driver
that stopped because a layer made no progress (the latter is proved
unreachable from reachable states). -/
inductive PErr where
  | lib (e : Error)
  | panicked
  | stuck
deriving DecidableEq, Repr

/-- Fuelled drain loop over `Dechunker::update` for one input slice: as the
library requires, the caller re-invokes `update` with the unconsumed
remainder of the slice until it is empty, collecting the emitted events. -/
def drainDAux : Nat → Dechunker.State → List Nat →
    Dechunker.State × Except PErr (List Dechunker.Event)
  | 0, d, _ => (d, .error .stuck)
  | fuel + 1, d, input =>
    if input.isEmpty then (d, .ok [])
    else
      match Dechunker.update d input with
      | (d', .error e) => (d', .error (.lib e))
      | (d', .ok (n, ev)) =>
        let r := drainDAux fuel d' (input.drop n)
        (r.1, r.2.map (fun evs => ev.toList ++ evs))

/-- Drain one input slice through the dechunker.  The fuel `2*len + 2`
suffices from every reachable state (each call either consumes a byte or
performs the zero-length-chunk transition to the CRC state). -/
def drainD (d : Dechunker.State) (input : List Nat) :
    Dechunker.State × Except PErr (List Dechunker.Event) :=
  drainDAux (2 * input.length + 2) d input

/-- Feed one chunk event into the stream decoder, draining the leftover slot
(the layer never actually produces a leftover, so one re-invocation bound
suffices; a second leftover stops the driver as `stuck`). -/
def sdFeed (d : StreamDecoder) (ev : Dechunker.Event) :
    StreamDecoder × Except PErr (List StreamDecoder.Event) :=
  match StreamDecoder.update d ev with
  | (d', .err e) => (d', .error (.lib e))
  | (d', .panicked) => (d', .error .panicked)
  | (d', .ok none out) => (d', .ok out.toList)
  | (d', .ok (some ev') out) =>
    match StreamDecoder.update d' ev' with
    | (d'', .err e) => (d'', .error (.lib e))
    | (d'', .panicked) => (d'', .error .panicked)
    | (d'', .ok none out') => (d'', .ok (out.toList ++ out'.toList))
    | (d'', .ok (some _) _) => (d'', .error .stuck)

/-- Feed a list of chunk events through the stream decoder in order. -/
def sdRunMany : StreamDecoder → List Dechunker.Event →
    StreamDecoder × Except PErr (List StreamDecoder.Event)
  | d, [] => (d, .ok [])
  | d, ev :: evs =>
    match sdFeed d ev with
    | (d', .error e) => (d', .error e)
    | (d', .ok outs) =>
      let r := sdRunMany d' evs
      (r.1, r.2.map (fun os => outs ++ os))

/-- Fuelled drain loop of the inflater on one `ImageData` event: re-invoke
`Inflater::update` on the leftover until the leftover slot is `none`. -/
def infDrainDataAux (f : List Nat → List Nat) (K cap : Nat) :
    Nat → MZ → List Nat → MZ × Except PErr (List Inflater.Event)
  | 0, s, _ => (s, .error .stuck)
  | fuel + 1, s, xs =>
    match Inflater.update f K cap s (.imageData xs) with
    | (s', .err e) => (s', .error (.lib e))
    | (s', .panicked) => (s', .error .panicked)
    | (s', .ok none out) => (s', .ok out.toList)
    | (s', .ok (some (.imageData rest)) out) =>
      let r := infDrainDataAux f K cap fuel s' rest
      (r.1, r.2.map (fun os => out.toList ++ os))
    | (s', .ok (some _) _) => (s', .error .stuck)

/-- Feed one stream event into the inflater, draining leftovers.  The fuel
computed for a data event suffices whenever `0 < K` and `0 < cap`. -/
def infFeed (f : List Nat → List Nat) (K cap : Nat) (s : MZ)
    (ev : StreamDecoder.Event) : MZ × Except PErr (List Inflater.Event) :=
  match ev with
  | .imageData xs =>
    infDrainDataAux f K cap (xs.length + (f (s.consumed ++ xs)).length + 2) s xs
  | .imageHeader h =>
    match Inflater.update f K cap s (.imageHeader h) with
    | (s', .ok none out) => (s', .ok out.toList)
    | (s', .ok (some _) _) => (s', .error .stuck)
    | (s', .err e) => (s', .error (.lib e))
    | (s', .panicked) => (s', .error .panicked)
  | .End =>
    match Inflater.update f K cap s .End with
    | (s', .ok none out) => (s', .ok out.toList)
    | (s', .ok (some _) _) => (s', .error .stuck)
    | (s', .err e) => (s', .error (.lib e))
    | (s', .panicked) => (s', .error .panicked)

/-- Feed a list of stream events through the inflater in order. -/
def infRunMany (f : List Nat → List Nat) (K cap : Nat) :
    MZ → List StreamDecoder.Event → MZ × Except PErr (List Inflater.Event)
  | s, [] => (s, .ok [])
  | s, ev :: evs =>
    match infFeed f K cap s ev with
    | (s', .error e) => (s', .error e)
    | (s', .ok outs) =>
      let r := infRunMany f K cap s' evs
      (r.1, r.2.map (fun os => outs ++ os))

/-- Joint state of the three pipeline layers. -/
structure Pipe where
  dech : Dechunker.State
  sd : StreamDecoder
  mz : MZ
deriving DecidableEq, Repr

/-- Initial pipeline state: `Dechunker::new`, `StreamDecoder::new`,
`Inflater::new`. -/
def Pipe.init : Pipe := ⟨Dechunker.new, StreamDecoder.new, MZ.new⟩

/-- Feed one input slice through the whole pipeline: drain the dechunker on
the slice, feed every chunk event through the stream decoder, and feed every
stream event through the inflater, draining leftovers at each layer. -/
def pipeSlice (f : List Nat → List Nat) (K cap : Nat) (p : Pipe)
    (slice : List Nat) : Pipe × Except PErr (List Inflater.Event) :=
  match drainD p.dech slice with
  | (d', .error e) => (⟨d', p.sd, p.mz⟩, .error e)
  | (d', .ok devs) =>
    match sdRunMany p.sd devs with
    | (sd', .error e) => (⟨d', sd', p.mz⟩, .error e)
    | (sd', .ok sevs) =>
      match infRunMany f K cap p.mz sevs with
      | (mz', r) => (⟨d', sd', mz'⟩, r)

/-- Feed a sequence of input slices through the pipeline from a given state,
concatenating the final events in order. -/
def pipeRunFrom (f : List Nat → List Nat) (K cap : Nat) :
    Pipe → List (List Nat) → Pipe × Except PErr (List Inflater.Event)
  | p, [] => (p, .ok [])
  | p, s :: ss =>
    match pipeSlice f K cap p s with
    | (p', .error e) => (p', .error e)
    | (p', .ok evs) =>
      let r := pipeRunFrom f K cap p' ss
      (r.1, r.2.map (fun es => evs ++ es))

/-- Feed a sequence of input slices through a fresh pipeline. -/
def pipeRun (f : List Nat → List Nat) (K cap : Nat)
    (slices : List (List Nat)) : Except PErr (List Inflater.Event) :=
  (pipeRunFrom f K cap Pipe.init slices).2

/-- Chunk-event tokens: a chunk event stream up to re-fragmentation of its
`Data` payloads. -/
inductive DTok where
  | tBegin (len : Nat) (type_ : List Nat)
  | tByte (b : Nat)
  | tEnd
deriving DecidableEq, Repr

/-- Token flattening of one chunk event. -/
def dTokensOfEvent : Dechunker.Event → List DTok
  | .beginChunk l t => [.tBegin l t]
  | .data xs => xs.map .tByte
  | .endChunk => [.tEnd]

/-- Token flattening of a chunk event list. -/
def dTokens (evs : List Dechunker.Event) : List DTok :=
  (evs.map dTokensOfEvent).flatten

/-- Stream-event tokens. -/
inductive STok where
  | sHeader (h : ImageHeader)
  | sByte (b : Nat)
  | sEnd
deriving DecidableEq, Repr

/-- Token flattening of one stream event. -/
def sTokensOfEvent : StreamDecoder.Event → List STok
  | .imageHeader h => [.sHeader h]
  | .imageData xs => xs.map .sByte
  | .End => [.sEnd]

/-- Token flattening of a stream event list. -/
def sTokens (evs : List StreamDecoder.Event) : List STok :=
  (evs.map sTokensOfEvent).flatten

/-- Final-event tokens: the parsed header, the individual data bytes, and
the end marker. -/
inductive FTok where
  | fHeader (h : ImageHeader)
  | fByte (b : Nat)
  | fEnd
deriving DecidableEq, Repr

/-- Token flattening of one final event. -/
def fTokensOfEvent : Inflater.Event → List FTok
  | .imageHeader h => [.fHeader h]
  | .imageData xs => xs.map .fByte
  | .End => [.fEnd]

/-- Token flattening of a final event list: the sequence of parsed headers,
decompressed data bytes and end markers, ignoring how the data bytes are
grouped into events. -/
def fTokens (evs : List Inflater.Event) : List FTok :=
  (evs.map fTokensOfEvent).flatten

/-- Smallest chunk event carrying one given token. -/
def unitDEvent : DTok → Dechunker.Event
  | .tBegin l t => .beginChunk l t
  | .tByte b => .data [b]
  | .tEnd => .endChunk

/-- Smallest stream event carrying one given token. -/
def unitSEvent : STok → StreamDecoder.Event
  | .sHeader h => .imageHeader h
  | .sByte b => .imageData [b]
  | .sEnd => .End

/-- One-byte step of the dechunker: drain a singleton slice. -/
def stepB (d : Dechunker.State) (b : Nat) :
    Dechunker.State × Except PErr (List Dechunker.Event) :=
  drainD d [b]

/-- Byte-at-a-time reference run of the dechunker, producing tokens. -/
def runB : Dechunker.State → List Nat →
    Dechunker.State × Except PErr (List DTok)
  | d, [] => (d, .ok [])
  | d, b :: bs =>
    match stepB d b with
    | (d', .error e) => (d', .error e)
    | (d', .ok evs) =>
      let r := runB d' bs
      (r.1, r.2.map (fun ts => dTokens evs ++ ts))

/-- Reachability invariant of the dechunker state: the signature position
and the scratch buffers are strictly below their completion sizes (on
completion the source transitions to the next state immediately). -/
def DInv : Dechunker.State → Prop
  | .pngSignature pos => pos < 8
  | .chunkHeader buf => buf.length < 8
  | .inChunk _ => True
  | .crc buf => buf.length < 4

/-- Successor state of the signature state after consuming the compared
prefix of `xs` (all bytes matching). -/
def sigNext (pos : Nat) (xs : List Nat) : Dechunker.State :=
  if pos + min xs.length (8 - pos) = 8 then .chunkHeader []
  else .pngSignature (pos + min xs.length (8 - pos))

/-- Fuel rank of a dechunker state: the zero-length-chunk state needs one
extra driver iteration before a byte can be consumed. -/
def rkD : Dechunker.State → Nat
  | .inChunk 0 => 1
  | _ => 0

/-- Well-formedness of a chunk event as actually emitted by the dechunker:
`Data` payloads are never empty. -/
def DEventWF : Dechunker.Event → Prop
  | .data xs => xs ≠ []
  | _ => True

/-- Well-formedness of a stream event as actually emitted by the stream
decoder: `ImageData` payloads are never empty. -/
def SEventWF : StreamDecoder.Event → Prop
  | .imageData xs => xs ≠ []
  | _ => True

/-- Feed a sequence of slices through the dechunker alone, concatenating the
emitted chunk events. -/
def drainSlices : Dechunker.State → List (List Nat) →
    Dechunker.State × Except PErr (List Dechunker.Event)
  | d, [] => (d, .ok [])
  | d, s :: ss =>
    match drainD d s with
    | (d', .error e) => (d', .error e)
    | (d', .ok evs) =>
      let r := drainSlices d' ss
      (r.1, r.2.map (fun evs2 => evs ++ evs2))

/-- Stage-by-stage form of the pipeline run: first the whole dechunker run,
then the whole stream-decoder run, then the whole inflater run. -/
def staged (f : List Nat → List Nat) (K cap : Nat) (p : Pipe)
    (ss : List (List Nat)) : Pipe × Except PErr (List Inflater.Event) :=
  match drainSlices p.dech ss with
  | (d', .error e) => (⟨d', p.sd, p.mz⟩, .error e)
  | (d', .ok devs) =>
    match sdRunMany p.sd devs with
    | (sd', .error e) => (⟨d', sd', p.mz⟩, .error e)
    | (sd', .ok sevs) =>
      match infRunMany f K cap p.mz sevs with
      | (mz', r) => (⟨d', sd', mz'⟩, r)

/-- Invariant of the modelled decompressor state: the number of emitted
bytes never exceeds the decompressed size of the consumed input. -/
def mzInv (f : List Nat → List Nat) (s : MZ) : Prop :=
  s.emitted ≤ (f s.consumed).length

/-- Canonical (fragmentation-independent) run of the pipeline on a byte
sequence: the byte-at-a-time dechunker reference run, followed by the
stream decoder on unit chunk events, followed by the inflater on unit
stream events, reduced to final tokens. -/
def canonRun (f : List Nat → List Nat) (K cap : Nat) (bytes : List Nat) :
    Except PErr (List FTok) :=
  match runB Dechunker.new bytes with
  | (_, .error e) => .error e
  | (_, .ok dt) =>
    match sdRunMany StreamDecoder.new (dt.map unitDEvent) with
    | (_, .error e) => .error e
    | (_, .ok sevs) =>
      match infRunMany f K cap MZ.new ((sTokens sevs).map unitSEvent) with
      | (_, .error e) => .error e
      | (_, .ok fevs) => .ok (fTokens fevs)


/-- Helper: pointwise characterisation of equality of `take`-prefixes. -/
theorem take_eq_take_iff_getD (xs ys : List Nat) (n : Nat)
    (hx : n ≤ xs.length) (hy : n ≤ ys.length) :
    xs.take n = ys.take n ↔ ∀ i, i < n → xs.getD i 0 = ys.getD i 0 := by
  constructor
  · intro h i hi
    have h1 : i < xs.length := lt_of_lt_of_le hi hx
    have h2 : i < ys.length := lt_of_lt_of_le hi hy
    rw [List.getD_eq_getElem xs 0 h1, List.getD_eq_getElem ys 0 h2]
    have hx' : i < (xs.take n).length := by simp; omega
    have hy' : i < (ys.take n).length := by simp; omega
    have h5 : (xs.take n)[i]? = (ys.take n)[i]? := by rw [h]
    rw [List.getElem?_take, List.getElem?_take, if_pos hi, if_pos hi] at h5
    have e1 : xs[i]? = some xs[i] := List.getElem?_eq_getElem h1
    have e2 : ys[i]? = some ys[i] := List.getElem?_eq_getElem h2
    rw [e1, e2] at h5
    simpa using h5
  · intro h
    apply List.ext_getElem (by simp; omega)
    intro i h1 h2
    have hi : i < n := by simp at h1; omega
    have hxi : i < xs.length := lt_of_lt_of_le hi hx
    have hyi : i < ys.length := lt_of_lt_of_le hi hy
    have := h i hi
    rw [List.getD_eq_getElem xs 0 hxi, List.getD_eq_getElem ys 0 hyi] at this
    simpa [List.getElem_take] using this

/-- Helper: `getD` after a `drop` indexes the original list. -/
theorem getD_drop_toAdd (l : List Nat) (m i : Nat) :
    (l.drop m).getD i 0 = l.getD (m + i) 0 := by
  rcases lt_or_le (m + i) l.length with h | h
  · have h1 : i < (l.drop m).length := by simp; omega
    rw [List.getD_eq_getElem _ 0 h1, List.getD_eq_getElem _ 0 h, List.getElem_drop]
  · have h1 : (l.drop m).length ≤ i := by simp; omega
    rw [List.getD_eq_default _ 0 h1, List.getD_eq_default _ 0 h]

/-- Helper: a three-byte slice of a list, elementwise. -/
theorem take3_drop_eq (l : List Nat) (m : Nat) (h : m + 3 ≤ l.length) :
    (l.drop m).take 3 = [l.getD m 0, l.getD (m + 1) 0, l.getD (m + 2) 0] := by
  apply List.ext_getElem (by simp; omega)
  intro i h1 h2
  have hi : i < 3 := by simpa using h2
  have h3 : i < (l.drop m).length := by simp; omega
  have h4 : m + i < l.length := by omega
  rw [List.getElem_take, List.getElem_drop]
  have hb0 : m < l.length := by omega
  have hb1 : m + 1 < l.length := by omega
  have hb2 : m + 2 < l.length := by omega
  have e0 : l[m]? = some l[m] := List.getElem?_eq_getElem hb0
  have e1 : l[m + 1]? = some l[m + 1] := List.getElem?_eq_getElem hb1
  have e2 : l[m + 2]? = some l[m + 2] := List.getElem?_eq_getElem hb2
  interval_cases i <;> simp [List.getD, e0, e1, e2]

set_option maxHeartbeats 2000000 in
/-- C2: in the `InChunk` state with `remaining` bytes left, `update` consumes
exactly `min remaining input.length` bytes, returns a `Data` event with
exactly those bytes when (and only when) the count is non-zero, and moves to
the check-value (CRC) state exactly when the remaining count reaches zero;
consequently a chunk with declared length 0 produces `BeginChunk` followed by
`EndChunk` with no `Data` event in between. -/
theorem dechunker_inChunk_spec :
    (∀ (remaining : Nat) (input : List Nat),
      Dechunker.update (.inChunk remaining) input =
        ((if remaining ≤ input.length then .crc []
          else .inChunk (remaining - min remaining input.length)),
         .ok (min remaining input.length,
           if min remaining input.length = 0 then none
           else some (.data (input.take (min remaining input.length)))))) ∧
    (∀ (ty crcBytes : List Nat), ty.length = 4 → crcBytes.length = 4 →
      drainD (.chunkHeader []) (([0, 0, 0, 0] ++ ty) ++ crcBytes) =
        (.chunkHeader [], .ok [.beginChunk 0 ty, .endChunk])) := by
  constructor
  · intro remaining input
    simp only [Dechunker.update]
    rcases le_or_lt remaining input.length with h | h
    · have h1 : min input.length remaining = remaining := by omega
      have h2 : min remaining input.length = remaining := by omega
      simp [h1, h2, h]
    · have h1 : min input.length remaining = input.length := by omega
      have h2 : min remaining input.length = input.length := by omega
      have h3 : ¬ (remaining = input.length) := by omega
      have h4 : ¬ (remaining ≤ input.length) := by omega
      simp [h1, h2, h3, h4]
  · intro ty crcBytes hty hcrc
    match ty, hty with
    | [t0, t1, t2, t3], _ =>
      match crcBytes, hcrc with
      | [c0, c1, c2, c3], _ => rfl

/-- C3: in the signature state at position `pos`, `update` fails with
`InvalidPngSignature` as soon as any compared byte differs from the fixed
8-byte magic prefix (position-tracked across calls), and when all compared
bytes match it consumes them, transitioning to the chunk-header state exactly
when the full 8 signature bytes have been seen. -/
theorem dechunker_signature_spec (pos : Nat) (input : List Nat)
    (hpos : pos < 8) :
    ((∃ i, i < min input.length (8 - pos) ∧
        input.getD i 0 ≠ PNG_SIGNATURE.getD (pos + i) 0) →
      Dechunker.update (.pngSignature pos) input =
        (.pngSignature pos, .error .InvalidPngSignature)) ∧
    ((∀ i, i < min input.length (8 - pos) →
        input.getD i 0 = PNG_SIGNATURE.getD (pos + i) 0) →
      Dechunker.update (.pngSignature pos) input =
        ((if pos + min input.length (8 - pos) = 8 then .chunkHeader []
          else .pngSignature (pos + min input.length (8 - pos))),
         .ok (min input.length (8 - pos), none))) := by
  have hsig : PNG_SIGNATURE.length = 8 := by decide
  have hcmp : input.take (min input.length (8 - pos)) =
      (PNG_SIGNATURE.drop pos).take (min input.length (8 - pos)) ↔
      ∀ i, i < min input.length (8 - pos) →
        input.getD i 0 = PNG_SIGNATURE.getD (pos + i) 0 := by
    rw [take_eq_take_iff_getD _ _ _ (by omega)
      (by simp only [List.length_drop, hsig]; omega)]
    constructor
    · intro h i hi
      rw [h i hi, getD_drop_toAdd]
    · intro h i hi
      rw [h i hi, getD_drop_toAdd]
  constructor
  · rintro ⟨i, hi, hne⟩
    have hcond : input.take (min input.length (8 - pos)) ≠
        (PNG_SIGNATURE.drop pos).take (min input.length (8 - pos)) := by
      intro heq
      exact hne ((hcmp.mp heq) i hi)
    simp only [Dechunker.update, hsig]
    rw [if_pos hcond]
  · intro h
    simp only [Dechunker.update, hsig]
    rw [if_neg (not_not_intro (hcmp.mpr h))]
    by_cases hc : pos + min input.length (8 - pos) = 8 <;> simp [hc]

/-- Witness for `dechunker_signature_spec` at the concrete partial prefix
`[0x89, 0x50, 0x4E]` (3 matching bytes) from position 0, and at the
mismatching prefix `[116, 104, 101]` (the bytes of `"the"`). -/
theorem dechunker_signature_spec_witness :
    (0 : Nat) < 8 ∧
    Dechunker.update (.pngSignature 0) [0x89, 0x50, 0x4E] =
      (.pngSignature 3, .ok (3, none)) ∧
    Dechunker.update (.pngSignature 0) [116, 104, 101] =
      (.pngSignature 0, .error .InvalidPngSignature) := by
  refine ⟨by decide, ?_, ?_⟩
  · exact (dechunker_signature_spec 0 [0x89, 0x50, 0x4E] (by decide)).2
      (by decide)
  · exact (dechunker_signature_spec 0 [116, 104, 101] (by decide)).1
      ⟨0, by decide, by decide⟩

/-- C4: `eof` succeeds exactly when the dechunker is awaiting a fresh chunk
header with an empty scratch buffer; in every other state it returns the
`UnfinishedChunk` error. -/
theorem dechunker_eof_spec (d : Dechunker.State) :
    (Dechunker.eof d = .ok () ↔ d = .chunkHeader []) ∧
    (d ≠ .chunkHeader [] → Dechunker.eof d = .error .UnfinishedChunk) := by
  cases d with
  | chunkHeader buf =>
    cases buf <;> simp [Dechunker.eof]
  | pngSignature pos => simp [Dechunker.eof]
  | inChunk r => simp [Dechunker.eof]
  | crc buf => simp [Dechunker.eof]

/-- Witness for `dechunker_eof_spec` at a mid-chunk state. -/
theorem dechunker_eof_spec_witness :
    Dechunker.State.inChunk 3 ≠ .chunkHeader [] ∧
    Dechunker.eof (.inChunk 3) = .error .UnfinishedChunk :=
  ⟨by decide, (dechunker_eof_spec (.inChunk 3)).2 (by decide)⟩

/-- C9: `color_at` never fails: an index whose triple lies beyond the
received palette bytes yields black `[0,0,0]`, and an in-range index yields
exactly the stored RGB triple at byte positions `index*3 .. index*3+3`. -/
theorem palette_color_at_spec (p : Palette) (index : Nat) (hidx : index < 256) :
    Palette.color_at p index =
      some (if (index + 1) * 3 > p.data.length then [0, 0, 0]
            else [p.data.getD (index * 3) 0, p.data.getD (index * 3 + 1) 0,
                  p.data.getD (index * 3 + 2) 0]) := by
  unfold Palette.color_at
  by_cases hgt : (index + 1) * 3 > p.data.length
  · simp [hgt]
  · have hle : index * 3 + 3 ≤ p.data.length := by omega
    have h3 : (index + 1) * 3 - index * 3 = 3 := by omega
    simp only [h3, take3_drop_eq _ _ hle, if_neg hgt]
    simp

/-- Witness for `palette_color_at_spec`: a 2-triple palette queried in range
(index 1) and out of range (index 7). -/
theorem palette_color_at_spec_witness :
    (1 : Nat) < 256 ∧
    Palette.color_at ⟨[10, 20, 30, 40, 50, 60]⟩ 1 = some [40, 50, 60] ∧
    Palette.color_at ⟨[10, 20, 30, 40, 50, 60]⟩ 7 = some [0, 0, 0] :=
  ⟨by decide, palette_color_at_spec ⟨[10, 20, 30, 40, 50, 60]⟩ 1 (by decide),
    palette_color_at_spec ⟨[10, 20, 30, 40, 50, 60]⟩ 7 (by decide)⟩

/-- C10: error atomicity.  Whenever `Dechunker::update` returns `Err`, the
dechunker state is exactly what it was before the call, and whenever
`StreamDecoder::update` returns `Err`, the stream-decoder state (including
the accumulated palette) is exactly what it was before the call. -/
theorem update_error_atomicity :
    (∀ (d : Dechunker.State) (input : List Nat) (d' : Dechunker.State)
        (e : Error), Dechunker.update d input = (d', .error e) → d' = d) ∧
    (∀ (sd : StreamDecoder) (ev : Dechunker.Event) (sd' : StreamDecoder)
        (e : Error), StreamDecoder.update sd ev = (sd', .err e) → sd' = sd) := by
  constructor
  · intro d input d' e h
    cases d <;>
      simp only [Dechunker.update] at h <;>
      (repeat' split at h) <;>
      simp_all [Prod.ext_iff]
  · intro sd ev sd' e h
    rcases sd with ⟨st, pal⟩
    cases st <;> cases ev <;>
      simp only [StreamDecoder.update] at h <;>
      (repeat' split at h) <;>
      simp_all [Prod.ext_iff]

/-- Witness for `update_error_atomicity`: a signature mismatch and an
oversized IEND chunk leave the respective layer states untouched. -/
theorem update_error_atomicity_witness :
    (Dechunker.update (.pngSignature 0) [116, 104, 101]).1 = .pngSignature 0 ∧
    (StreamDecoder.update StreamDecoder.new (.beginChunk 42 IEND)).1 =
      StreamDecoder.new :=
  ⟨update_error_atomicity.1 (.pngSignature 0) [116, 104, 101] _
      .InvalidPngSignature rfl,
   update_error_atomicity.2 StreamDecoder.new (.beginChunk 42 IEND) _
      .InvalidEndChunkSize rfl⟩

/-- C7: whenever `StreamDecoder::update` returns `Ok`, the leftover
component is `none`: the stream interpreter always fully consumes its input
chunk event. -/
theorem streamDecoder_no_leftover (sd : StreamDecoder) (ev : Dechunker.Event)
    (sd' : StreamDecoder) (lo : Option Dechunker.Event)
    (out : Option StreamDecoder.Event)
    (h : StreamDecoder.update sd ev = (sd', .ok lo out)) : lo = none := by
  rcases sd with ⟨st, pal⟩
  cases st <;> cases ev <;>
    simp only [StreamDecoder.update] at h <;>
    (repeat' split at h) <;>
    simp_all [Prod.ext_iff]

/-- Witness for `streamDecoder_no_leftover` at a concrete `BeginChunk`. -/
theorem streamDecoder_no_leftover_witness :
    StreamDecoder.update StreamDecoder.new (.beginChunk 13 IHDR) =
      (⟨.ihdr [], ⟨[]⟩⟩, .ok none none) ∧
    (none : Option Dechunker.Event) = none :=
  ⟨rfl, streamDecoder_no_leftover StreamDecoder.new (.beginChunk 13 IHDR)
    ⟨.ihdr [], ⟨[]⟩⟩ none none rfl⟩

/-- C5: the `BeforeChunk` dispatch on `BeginChunk` events: an IHDR chunk
whose length is not 13 fails with `InvalidImageHeaderLength`; an IEND chunk
with non-zero length fails with `InvalidEndChunkSize`; a PLTE chunk whose
length is not a multiple of 3 or exceeds 768 fails with
`InvalidPaletteChunkSize`; otherwise the call succeeds and moves to the
state for the chunk kind, any unrecognised tag landing in the ignored-chunk
state. -/
theorem streamDecoder_beforeChunk_dispatch (sd : StreamDecoder) (len : Nat)
    (ty : List Nat) (hst : sd.state = .beforeChunk) :
    (ty = IHDR → len ≠ 13 →
      StreamDecoder.update sd (.beginChunk len ty) =
        (sd, .err .InvalidImageHeaderLength)) ∧
    (ty = IEND → len ≠ 0 →
      StreamDecoder.update sd (.beginChunk len ty) =
        (sd, .err .InvalidEndChunkSize)) ∧
    (ty = PLTE → (len % 3 ≠ 0 ∨ len > 768) →
      StreamDecoder.update sd (.beginChunk len ty) =
        (sd, .err .InvalidPaletteChunkSize)) ∧
    (ty = IHDR → len = 13 →
      StreamDecoder.update sd (.beginChunk len ty) =
        ({ sd with state := .ihdr [] }, .ok none none)) ∧
    (ty = IDAT →
      StreamDecoder.update sd (.beginChunk len ty) =
        ({ sd with state := .idat }, .ok none none)) ∧
    (ty = IEND → len = 0 →
      StreamDecoder.update sd (.beginChunk len ty) =
        ({ sd with state := .iend }, .ok none none)) ∧
    (ty = PLTE → len % 3 = 0 → len ≤ 768 →
      StreamDecoder.update sd (.beginChunk len ty) =
        ({ sd with state := .plte }, .ok none none)) ∧
    (ty ≠ IHDR → ty ≠ IDAT → ty ≠ IEND → ty ≠ PLTE →
      StreamDecoder.update sd (.beginChunk len ty) =
        ({ sd with state := .ignoredChunk }, .ok none none)) := by
  rcases sd with ⟨st, pal⟩
  simp only [StreamDecoder.State] at hst
  subst hst
  refine ⟨?_, ?_, ?_, ?_, ?_, ?_, ?_, ?_⟩
  · rintro rfl hlen
    simp [StreamDecoder.update, ImageHeader.SIZE, hlen]
  · rintro rfl hlen
    simp [StreamDecoder.update, IEND, IHDR, IDAT, hlen]
  · rintro rfl hlen
    have : len % 3 ≠ 0 ∨ len > 256 * 3 := by omega
    simp [StreamDecoder.update, PLTE, IHDR, IDAT, IEND, this]
  · rintro rfl rfl
    simp [StreamDecoder.update, ImageHeader.SIZE]
  · rintro rfl
    simp [StreamDecoder.update, IDAT, IHDR]
  · rintro rfl rfl
    simp [StreamDecoder.update, IEND, IHDR, IDAT]
  · rintro rfl h3 h768
    have h1 : ¬ (len % 3 ≠ 0 ∨ len > 256 * 3) := by omega
    simp [StreamDecoder.update, PLTE, IHDR, IDAT, IEND, h1]
  · intro h1 h2 h3 h4
    simp [StreamDecoder.update, h1, h2, h3, h4]

/-- Witness for `streamDecoder_beforeChunk_dispatch`: a palette chunk of
length 4 is rejected with `InvalidPaletteChunkSize`. -/
theorem streamDecoder_beforeChunk_dispatch_witness :
    StreamDecoder.new.state = .beforeChunk ∧
    StreamDecoder.update StreamDecoder.new (.beginChunk 4 PLTE) =
      (StreamDecoder.new, .err .InvalidPaletteChunkSize) :=
  ⟨rfl, (streamDecoder_beforeChunk_dispatch StreamDecoder.new 4 PLTE rfl).2.2.1
    rfl (by decide)⟩

set_option maxRecDepth 4096 in
/-- C6: with the 13-byte IHDR scratch buffer exactly full, an `EndChunk`
event emits `ImageHeader` with width decoded big-endian from bytes 0..4,
height big-endian from bytes 4..8, then bit depth, colour type, compression
method, filter method and interlace method from bytes 8..13, and the state
returns to `BeforeChunk`. -/
theorem streamDecoder_ihdr_decode (sd : StreamDecoder)
    (b0 b1 b2 b3 b4 b5 b6 b7 b8 b9 b10 b11 b12 : Nat)
    (hst : sd.state = .ihdr [b0, b1, b2, b3, b4, b5, b6, b7, b8, b9, b10, b11, b12]) :
    StreamDecoder.update sd .endChunk =
      ({ sd with state := .beforeChunk },
        .ok none (some (.imageHeader
          { width := ((b0 * 256 + b1) * 256 + b2) * 256 + b3
          , height := ((b4 * 256 + b5) * 256 + b6) * 256 + b7
          , bit_depth := b8
          , colour_type := b9
          , compression_method := b10
          , filter_method := b11
          , interlace_method := b12 }))) := by
  rcases sd with ⟨st, pal⟩
  simp only at hst
  subst hst
  have hred : StreamDecoder.update
      ⟨.ihdr [b0, b1, b2, b3, b4, b5, b6, b7, b8, b9, b10, b11, b12], pal⟩
      .endChunk =
      (⟨.beforeChunk, pal⟩, .ok none (some (.imageHeader (decodeImageHeader
        [b0, b1, b2, b3, b4, b5, b6, b7, b8, b9, b10, b11, b12])))) := rfl
  rw [hred]
  simp only [Prod.mk.injEq, StepRes.ok.injEq, Option.some.injEq,
    StreamDecoder.Event.imageHeader.injEq, true_and]
  simp [decodeImageHeader, beU32, ImageHeader.mk.injEq, List.getD]

/-- Witness for `streamDecoder_ihdr_decode` on the payload used by the
library's own `decode_simple_ihdr` test. -/
theorem streamDecoder_ihdr_decode_witness :
    (⟨.ihdr [0, 0, 0, 1, 0, 0, 0, 2, 3, 4, 5, 6, 7], ⟨[]⟩⟩ :
        StreamDecoder).state =
      .ihdr [0, 0, 0, 1, 0, 0, 0, 2, 3, 4, 5, 6, 7] ∧
    StreamDecoder.update ⟨.ihdr [0, 0, 0, 1, 0, 0, 0, 2, 3, 4, 5, 6, 7], ⟨[]⟩⟩
        .endChunk =
      (⟨.beforeChunk, ⟨[]⟩⟩,
        .ok none (some (.imageHeader ⟨1, 2, 3, 4, 5, 6, 7⟩))) :=
  ⟨rfl, streamDecoder_ihdr_decode _ 0 0 0 1 0 0 0 2 3 4 5 6 7 rfl⟩

/-- Helper: the success path of the inflater `ImageData` arm determines the
leftover and the emitted event. -/
theorem emitStep_ok_spec (output_buf input : List Nat) (result : InflateResult)
    (lo : Option StreamDecoder.Event) (out : Option Inflater.Event)
    (h : Inflater.emitStep output_buf input result = .ok lo out) :
    lo = (if result.bytes_consumed < input.length then
            some (.imageData (input.drop result.bytes_consumed))
          else if result.bytes_written = output_buf.length then
            some (.imageData [])
          else none) ∧
    out = some (.imageData (output_buf.take result.bytes_written)) := by
  unfold Inflater.emitStep at h
  split at h
  · exact absurd h (by simp)
  · simp only [StepRes.ok.injEq] at h
    exact ⟨h.1.symm, h.2.symm⟩

/-- C8: whenever the `ImageData` arm of `Inflater::update` returns `Ok`
after a decompression step with counts `bytes_consumed`/`bytes_written`, the
leftover is `ImageData` of the unconsumed input tail if input remains,
otherwise the empty sentinel `ImageData []` exactly when the output window
was filled to capacity, otherwise `none`; and the emitted event is always
`ImageData` of the first `bytes_written` bytes of the output window. -/
theorem inflater_imageData_leftover_spec (output_buf input : List Nat)
    (result : InflateResult) (lo : Option StreamDecoder.Event)
    (out : Option Inflater.Event)
    (h : Inflater.handleImageData output_buf input result = .ok lo out) :
    lo = (if result.bytes_consumed < input.length then
            some (.imageData (input.drop result.bytes_consumed))
          else if result.bytes_written = output_buf.length then
            some (.imageData [])
          else none) ∧
    out = some (.imageData (output_buf.take result.bytes_written)) := by
  unfold Inflater.handleImageData at h
  rcases result with ⟨status, bc, bw⟩
  cases status
  · exact emitStep_ok_spec _ _ _ _ _ h
  · exact absurd h (by simp)
  · exact absurd h (by simp)
  · simp only at h
    split at h
    · exact absurd h (by simp)
    · exact emitStep_ok_spec _ _ _ _ _ h
  · exact absurd h (by simp)

/-- Witness for `inflater_imageData_leftover_spec`: a step that consumed 2
of 3 input bytes and wrote 4 bytes into a 4-byte window leaves the input
tail as leftover and emits the whole window. -/
theorem inflater_imageData_leftover_spec_witness :
    Inflater.handleImageData [1, 2, 3, 4] [5, 6, 7] ⟨.success, 2, 4⟩ =
      .ok (some (.imageData [7])) (some (.imageData [1, 2, 3, 4])) ∧
    (some (.imageData [7]) : Option StreamDecoder.Event) =
      some (.imageData [7]) ∧
    (some (.imageData [1, 2, 3, 4]) : Option Inflater.Event) =
      some (.imageData [1, 2, 3, 4]) :=
  ⟨rfl,
    (inflater_imageData_leftover_spec [1, 2, 3, 4] [5, 6, 7] ⟨.success, 2, 4⟩
      (some (.imageData [7])) (some (.imageData [1, 2, 3, 4])) rfl).1,
    (inflater_imageData_leftover_spec [1, 2, 3, 4] [5, 6, 7] ⟨.success, 2, 4⟩
      (some (.imageData [7])) (some (.imageData [1, 2, 3, 4])) rfl).2⟩

/-- Witness for `dechunker_inChunk_spec`: an IDAT chunk of declared length 0
followed by its 4 check bytes produces `BeginChunk` then `EndChunk` only. -/
theorem dechunker_inChunk_spec_witness :
    IDAT.length = 4 ∧
    drainD (.chunkHeader []) (([0, 0, 0, 0] ++ IDAT) ++ [9, 9, 9, 9]) =
      (.chunkHeader [], .ok [.beginChunk 0 IDAT, .endChunk]) :=
  ⟨by decide, dechunker_inChunk_spec.2 IDAT [9, 9, 9, 9] (by decide) (by decide)⟩

/-- Helper: token flattening of chunk events is a list homomorphism. -/
theorem dTokens_append (as bs : List Dechunker.Event) :
    dTokens (as ++ bs) = dTokens as ++ dTokens bs := by
  simp [dTokens]

/-- Helper: token flattening of stream events is a list homomorphism. -/
theorem sTokens_append (as bs : List StreamDecoder.Event) :
    sTokens (as ++ bs) = sTokens as ++ sTokens bs := by
  simp [sTokens]

/-- Helper: token flattening of final events is a list homomorphism. -/
theorem fTokens_append (as bs : List Inflater.Event) :
    fTokens (as ++ bs) = fTokens as ++ fTokens bs := by
  simp [fTokens]

/-- Helper: the dechunker only errors in the signature state, leaving the
state unchanged. -/
theorem upd_error (d : Dechunker.State) (input : List Nat)
    (d' : Dechunker.State) (e : Error)
    (h : Dechunker.update d input = (d', .error e)) :
    d' = d ∧ e = .InvalidPngSignature ∧ ∃ pos, d = .pngSignature pos := by
  cases d with
  | pngSignature pos =>
    simp only [Dechunker.update] at h
    split at h
    · simp only [Prod.mk.injEq, Except.error.injEq] at h
      exact ⟨h.1.symm, h.2.symm, pos, rfl⟩
    · split at h <;> simp at h
  | chunkHeader buf =>
    simp only [Dechunker.update] at h
    split at h <;> simp at h
  | inChunk r =>
    simp only [Dechunker.update] at h
    simp at h
  | crc buf =>
    simp only [Dechunker.update] at h
    split at h <;> simp at h

/-- Helper: the dechunker never consumes more bytes than supplied. -/
theorem upd_consumed_le (d : Dechunker.State) (input : List Nat)
    (d' : Dechunker.State) (n : Nat) (ev : Option Dechunker.Event)
    (h : Dechunker.update d input = (d', .ok (n, ev))) : n ≤ input.length := by
  cases d <;>
    simp only [Dechunker.update] at h <;>
    (repeat' split at h) <;>
    simp_all [Prod.ext_iff] <;>
    omega

/-- Helper: from a reachable state, a call that consumes nothing from a
non-empty input is exactly the zero-length-chunk transition to the CRC
state. -/
theorem upd_progress (d : Dechunker.State) (input : List Nat)
    (d' : Dechunker.State) (ev : Option Dechunker.Event) (hInv : DInv d)
    (hne : input ≠ []) (h : Dechunker.update d input = (d', .ok (0, ev))) :
    d = .inChunk 0 ∧ d' = .crc [] ∧ ev = none := by
  have hlen : 0 < input.length := List.length_pos.mpr hne
  cases d with
  | pngSignature pos =>
    simp only [DInv] at hInv
    simp only [Dechunker.update, show PNG_SIGNATURE.length = 8 from rfl] at h
    split at h
    · simp at h
    · split at h <;>
        (simp only [Prod.mk.injEq, Except.ok.injEq] at h; omega)
  | chunkHeader buf =>
    simp only [DInv] at hInv
    simp only [Dechunker.update, show CHUNK_HEADER_SIZE = 8 from rfl] at h
    split at h <;>
      (simp only [Prod.mk.injEq, Except.ok.injEq] at h; omega)
  | inChunk r =>
    simp only [Dechunker.update] at h
    simp only [Prod.mk.injEq, Except.ok.injEq] at h
    have hr : r = 0 := by omega
    subst hr
    simp_all
  | crc buf =>
    simp only [DInv] at hInv
    simp only [Dechunker.update, show CRC_SIZE = 4 from rfl] at h
    split at h <;>
      (simp only [Prod.mk.injEq, Except.ok.injEq] at h; omega)

/-- Helper: the reachability invariant is preserved by successful calls. -/
theorem DInv_update (d : Dechunker.State) (input : List Nat)
    (d' : Dechunker.State) (n : Nat) (ev : Option Dechunker.Event)
    (hInv : DInv d) (h : Dechunker.update d input = (d', .ok (n, ev))) :
    DInv d' := by
  cases d with
  | pngSignature pos =>
    simp only [DInv] at hInv
    simp only [Dechunker.update, show PNG_SIGNATURE.length = 8 from rfl] at h
    split at h
    · simp at h
    · split at h <;>
        (simp only [Prod.mk.injEq, Except.ok.injEq] at h;
         rcases h with ⟨h1, h2⟩; subst h1) <;>
        simp_all [DInv] <;> omega
  | chunkHeader buf =>
    simp only [DInv] at hInv
    simp only [Dechunker.update, show CHUNK_HEADER_SIZE = 8 from rfl] at h
    split at h <;>
      (simp only [Prod.mk.injEq, Except.ok.injEq] at h;
       rcases h with ⟨h1, h2⟩; subst h1) <;>
      simp_all [DInv, List.length_append, List.length_take] <;> omega
  | inChunk r =>
    simp only [Dechunker.update] at h
    simp only [Prod.mk.injEq, Except.ok.injEq] at h
    rcases h with ⟨h1, h2⟩
    subst h1
    split <;> simp [DInv]
  | crc buf =>
    simp only [DInv] at hInv
    simp only [Dechunker.update, show CRC_SIZE = 4 from rfl] at h
    split at h <;>
      (simp only [Prod.mk.injEq, Except.ok.injEq] at h;
       rcases h with ⟨h1, h2⟩; subst h1) <;>
      simp_all [DInv, List.length_append, List.length_take] <;> omega

/-- Helper: definitional unfolding of one fuelled drain iteration. -/
theorem drainDAux_succ (fuel : Nat) (d : Dechunker.State) (input : List Nat) :
    drainDAux (fuel + 1) d input =
      (if input.isEmpty then (d, .ok [])
       else match Dechunker.update d input with
        | (d', .error e) => (d', .error (.lib e))
        | (d', .ok (n, ev)) =>
          let r := drainDAux fuel d' (input.drop n)
          (r.1, r.2.map (fun evs => ev.toList ++ evs))) := rfl

/-- Helper: draining an empty slice does nothing. -/
theorem drainDAux_nil (fuel : Nat) (d : Dechunker.State) :
    drainDAux (fuel + 1) d [] = (d, .ok []) := rfl

/-- Helper: a one-byte step that consumes its byte in one `update` call. -/
theorem stepB_one (d : Dechunker.State) (b : Nat) (d₁ : Dechunker.State)
    (ev : Option Dechunker.Event)
    (h : Dechunker.update d [b] = (d₁, .ok (1, ev))) :
    stepB d b = (d₁, .ok ev.toList) := by
  show drainDAux (2 * [b].length + 2) d [b] = (d₁, .ok ev.toList)
  rw [show 2 * [b].length + 2 = 3 + 1 from rfl, drainDAux_succ]
  simp [h, drainDAux_nil, Except.map]

/-- Helper: a one-byte step whose first `update` call consumes nothing (the
zero-length-chunk transition) and whose second consumes the byte. -/
theorem stepB_two (d : Dechunker.State) (b : Nat)
    (d₁ d₂ : Dechunker.State) (ev₁ ev₂ : Option Dechunker.Event)
    (h₁ : Dechunker.update d [b] = (d₁, .ok (0, ev₁)))
    (h₂ : Dechunker.update d₁ [b] = (d₂, .ok (1, ev₂))) :
    stepB d b = (d₂, .ok (ev₁.toList ++ ev₂.toList)) := by
  show drainDAux (2 * [b].length + 2) d [b] = (d₂, .ok (ev₁.toList ++ ev₂.toList))
  rw [show 2 * [b].length + 2 = 3 + 1 from rfl, drainDAux_succ]
  simp only [List.isEmpty_cons, Bool.false_eq_true, if_false, h₁, List.drop_zero]
  rw [show (3 : Nat) = 2 + 1 from rfl, drainDAux_succ]
  simp [h₂, drainDAux_nil, Except.map]

/-- Helper: a one-byte step on which `update` fails. -/
theorem stepB_err (d : Dechunker.State) (b : Nat) (d₁ : Dechunker.State)
    (e : Error) (h : Dechunker.update d [b] = (d₁, .error e)) :
    stepB d b = (d₁, .error (.lib e)) := by
  show drainDAux (2 * [b].length + 2) d [b] = (d₁, .error (.lib e))
  rw [show 2 * [b].length + 2 = 3 + 1 from rfl, drainDAux_succ]
  simp [h]

/-- Helper: functoriality of `Except.map`. -/
theorem except_map_comp {α β γ ε : Type} (g : α → β) (f : β → γ)
    (x : Except ε α) : (x.map g).map f = x.map (fun a => f (g a)) := by
  cases x <;> rfl

/-- Helper: mapping the identity over an `Except` does nothing. -/
theorem except_map_id {α ε : Type} (x : Except ε α) :
    x.map (fun a => a) = x := by
  cases x <;> rfl

/-- Helper: definitional unfolding of the byte-at-a-time reference run. -/
theorem runB_cons (d : Dechunker.State) (b : Nat) (bs : List Nat) :
    runB d (b :: bs) =
      (match stepB d b with
       | (d', .error e) => (d', .error e)
       | (d', .ok evs) =>
         ((runB d' bs).1, (runB d' bs).2.map (fun ts => dTokens evs ++ ts))) :=
  rfl

/-- Helper: the reference run on an empty input does nothing. -/
theorem runB_nil (d : Dechunker.State) : runB d [] = (d, .ok []) := rfl

/-- Helper: head decomposition of the remaining signature suffix. -/
theorem sig_drop_cons (pos : Nat) (hpos : pos < 8) :
    PNG_SIGNATURE.drop pos =
      PNG_SIGNATURE.getD pos 0 :: PNG_SIGNATURE.drop (pos + 1) := by
  have h8 : pos < PNG_SIGNATURE.length := by
    simpa using hpos
  rw [List.drop_eq_getElem_cons h8, List.getD_eq_getElem _ 0 h8]

/-- Helper: byte-run of the in-chunk state when the whole input fits in the
remaining payload. -/
theorem runB_inChunk_small (xs : List Nat) : ∀ r : Nat, xs.length < r →
    runB (.inChunk r) xs = (.inChunk (r - xs.length), .ok (xs.map .tByte)) := by
  induction xs with
  | nil => intro r hr; simp [runB_nil]
  | cons x rest ih =>
    intro r hr
    have hr1 : 1 < r := by simp at hr; omega
    have h1 : Dechunker.update (.inChunk r) [x] =
        (.inChunk (r - 1), .ok (1, some (.data [x]))) := by
      simp only [Dechunker.update, List.length_cons, List.length_nil]
      have hm : min 1 r = 1 := by omega
      have hne : ¬ (r = 1) := by omega
      simp [hm, hne]
    have hs : stepB (.inChunk r) x = (.inChunk (r - 1), .ok [.data [x]]) :=
      stepB_one _ _ _ _ h1
    rw [runB_cons]
    simp only [hs]
    rw [ih (r - 1) (by simp at hr ⊢; omega)]
    simp only [Except.map, List.length_cons]
    have harith : r - 1 - rest.length = r - (rest.length + 1) := by omega
    simp [dTokens, dTokensOfEvent, harith]

/-- Helper: one-byte `update` in the signature state on a matching byte. -/
theorem upd1_sig_ok (pos : Nat) (x : Nat) (hpos : pos < 8)
    (hx : x = PNG_SIGNATURE.getD pos 0) :
    Dechunker.update (.pngSignature pos) [x] =
      ((if pos + 1 = 8 then .chunkHeader [] else .pngSignature (pos + 1)),
        .ok (1, none)) := by
  simp only [Dechunker.update, show PNG_SIGNATURE.length = 8 from rfl,
    List.length_singleton]
  have hm : min 1 (8 - pos) = 1 := by omega
  rw [hm]
  have hcond : ¬ ([x].take 1 ≠ (PNG_SIGNATURE.drop pos).take 1) := by
    rw [sig_drop_cons pos hpos]
    simp [hx]
  rw [if_neg hcond]
  by_cases h8 : pos + 1 = 8 <;> simp [h8]

/-- Helper: one-byte `update` in the signature state on a mismatch. -/
theorem upd1_sig_err (pos : Nat) (x : Nat) (hpos : pos < 8)
    (hx : x ≠ PNG_SIGNATURE.getD pos 0) :
    Dechunker.update (.pngSignature pos) [x] =
      (.pngSignature pos, .error .InvalidPngSignature) := by
  simp only [Dechunker.update, show PNG_SIGNATURE.length = 8 from rfl,
    List.length_singleton]
  have hm : min 1 (8 - pos) = 1 := by omega
  rw [hm]
  have hcond : [x].take 1 ≠ (PNG_SIGNATURE.drop pos).take 1 := by
    rw [sig_drop_cons pos hpos]
    simpa [List.getD] using hx
  rw [if_pos hcond]

/-- Helper: one-byte `update` in the chunk-header state. -/
theorem upd1_ch (buf : List Nat) (x : Nat) (hbuf : buf.length < 8) :
    Dechunker.update (.chunkHeader buf) [x] =
      (if (buf ++ [x]).length = 8 then
        (.inChunk (beU32 ((buf ++ [x]).take 4)),
          .ok (1, some (.beginChunk (beU32 ((buf ++ [x]).take 4))
            (((buf ++ [x]).drop 4).take 4))))
      else (.chunkHeader (buf ++ [x]), .ok (1, none))) := by
  simp only [Dechunker.update, show CHUNK_HEADER_SIZE = 8 from rfl,
    List.length_singleton]
  have hm : min 1 (8 - buf.length) = 1 := by omega
  rw [hm]
  rfl

/-- Helper: one-byte `update` in the in-chunk state with payload left. -/
theorem upd1_ic (r : Nat) (x : Nat) (hr : 0 < r) :
    Dechunker.update (.inChunk r) [x] =
      ((if r = 1 then .crc [] else .inChunk (r - 1)),
        .ok (1, some (.data [x]))) := by
  simp only [Dechunker.update, List.length_singleton]
  have hm : min 1 r = 1 := by omega
  rw [hm]
  simp

/-- Helper: one-byte `update` in the check-value state. -/
theorem upd1_crc (buf : List Nat) (x : Nat) (hbuf : buf.length < 4) :
    Dechunker.update (.crc buf) [x] =
      (if (buf ++ [x]).length = 4 then (.chunkHeader [], .ok (1, some .endChunk))
       else (.crc (buf ++ [x]), .ok (1, none))) := by
  simp only [Dechunker.update, show CRC_SIZE = 4 from rfl,
    List.length_singleton]
  have hm : min 1 (4 - buf.length) = 1 := by omega
  rw [hm]
  rfl

/-- Helper: byte-run of the in-chunk state when the remaining payload is
contained in the input: all payload bytes stream out as data tokens and the
run continues in the check-value state. -/
theorem runB_inChunk_large (xs : List Nat) : ∀ r : Nat, 0 < r →
    r ≤ xs.length →
    runB (.inChunk r) xs =
      ((runB (.crc []) (xs.drop r)).1,
       (runB (.crc []) (xs.drop r)).2.map
         (fun ts => (xs.take r).map .tByte ++ ts)) := by
  induction xs with
  | nil =>
    intro r h0 hle
    simp at hle
    omega
  | cons x rest ih =>
    intro r h0 hle
    obtain ⟨r', rfl⟩ : ∃ r', r = r' + 1 := ⟨r - 1, by omega⟩
    have hs : stepB (.inChunk (r' + 1)) x =
        ((if r' + 1 = 1 then .crc [] else .inChunk r'),
          .ok [.data [x]]) := by
      have h1 := upd1_ic (r' + 1) x (by omega)
      have h1' : Dechunker.update (.inChunk (r' + 1)) [x] =
          ((if r' + 1 = 1 then .crc [] else .inChunk r'), .ok (1, some (.data [x]))) := by
        simpa using h1
      exact stepB_one _ _ _ _ h1'
    rcases Nat.eq_zero_or_pos r' with hr' | hr'
    · subst hr'
      rw [runB_cons]
      simp only [hs, if_pos rfl]
      simp [dTokens, dTokensOfEvent]
    · have hne : ¬ (r' + 1 = 1) := by omega
      rw [runB_cons]
      simp only [hs, if_neg hne]
      rw [ih r' hr' (by simp at hle; omega)]
      simp only [List.drop_succ_cons, List.take_succ_cons, except_map_comp]
      rfl

/-- Helper: a byte arriving at the zero-length-chunk state behaves as if the
state had already moved on to the check-value state. -/
theorem runB_inChunk_zero (x : Nat) (xs : List Nat) :
    runB (.inChunk 0) (x :: xs) = runB (.crc []) (x :: xs) := by
  have h1 : Dechunker.update (.inChunk 0) [x] = (.crc [], .ok (0, none)) := rfl
  have h2 : Dechunker.update (.crc []) [x] = (.crc [x], .ok (1, none)) := rfl
  have hA : stepB (.inChunk 0) x = (.crc [x], .ok []) := by
    have := stepB_two _ _ _ _ _ _ h1 h2
    simpa using this
  have hB : stepB (.crc []) x = (.crc [x], .ok []) := by
    have := stepB_one _ _ _ _ h2
    simpa using this
  rw [runB_cons, runB_cons, hA, hB]

/-- Helper: byte-run of the chunk-header state when the header stays
incomplete: the bytes accumulate and nothing is emitted. -/
theorem runB_chunkHeader_small (xs : List Nat) : ∀ buf : List Nat,
    buf.length + xs.length < 8 →
    runB (.chunkHeader buf) xs = (.chunkHeader (buf ++ xs), .ok []) := by
  induction xs with
  | nil => intro buf h; simp [runB_nil]
  | cons x rest ih =>
    intro buf h
    simp only [List.length_cons] at h
    have h1 := upd1_ch buf x (by omega)
    rw [if_neg (by simp; omega)] at h1
    have hs : stepB (.chunkHeader buf) x = (.chunkHeader (buf ++ [x]), .ok []) := by
      have := stepB_one _ _ _ _ h1
      simpa using this
    rw [runB_cons]
    simp only [hs]
    rw [ih (buf ++ [x]) (by simp; omega)]
    simp [dTokens, Except.map]

/-- Helper: byte-run of the chunk-header state when the input completes the
8-byte header: a `tBegin` token is emitted at the filling byte and the run
continues in the in-chunk state for the decoded length. -/
theorem runB_chunkHeader_full (xs : List Nat) : ∀ buf buf' : List Nat,
    buf.length < 8 → 8 ≤ buf.length + xs.length →
    buf' = buf ++ xs.take (8 - buf.length) →
    runB (.chunkHeader buf) xs =
      ((runB (.inChunk (beU32 (buf'.take 4))) (xs.drop (8 - buf.length))).1,
       (runB (.inChunk (beU32 (buf'.take 4))) (xs.drop (8 - buf.length))).2.map
         (fun ts => .tBegin (beU32 (buf'.take 4)) ((buf'.drop 4).take 4) :: ts)) := by
  induction xs with
  | nil =>
    intro buf buf' hlt hge _
    simp at hge
    omega
  | cons x rest ih =>
    intro buf buf' hlt hge hbuf'
    rcases Nat.lt_or_ge (buf.length + 1) 8 with h7 | h7
    · -- the byte does not complete the header yet
      have h1 := upd1_ch buf x hlt
      rw [if_neg (by simp; omega)] at h1
      have hs : stepB (.chunkHeader buf) x = (.chunkHeader (buf ++ [x]), .ok []) := by
        have := stepB_one _ _ _ _ h1
        simpa using this
      rw [runB_cons]
      simp only [hs]
      have hk : 8 - buf.length = (8 - (buf ++ [x]).length) + 1 := by
        simp; omega
      have hbuf'' : buf' = (buf ++ [x]) ++ rest.take (8 - (buf ++ [x]).length) := by
        rw [hbuf', hk]
        simp [List.take_succ_cons]
      rw [ih (buf ++ [x]) buf' (by simp; omega) (by simp; simp at hge; omega) hbuf'']
      have hd : (x :: rest).drop (8 - buf.length) =
          rest.drop (8 - (buf ++ [x]).length) := by
        rw [hk]
        simp
      rw [hd]
      simp [dTokens, except_map_id]
    · -- the byte completes the header
      have hlen7 : buf.length = 7 := by omega
      have h1 := upd1_ch buf x hlt
      rw [if_pos (by simp; omega)] at h1
      have hs : stepB (.chunkHeader buf) x =
          (.inChunk (beU32 ((buf ++ [x]).take 4)),
            .ok [.beginChunk (beU32 ((buf ++ [x]).take 4))
              (((buf ++ [x]).drop 4).take 4)]) := by
        have := stepB_one _ _ _ _ h1
        simpa using this
      have hk : 8 - buf.length = 1 := by omega
      have hbuf'' : buf' = buf ++ [x] := by
        rw [hbuf', hk]
        simp
      rw [runB_cons]
      simp only [hs]
      rw [hk, hbuf'']
      simp [dTokens, dTokensOfEvent]

/-- Helper: byte-run of the check-value state when the check value stays
incomplete. -/
theorem runB_crc_small (xs : List Nat) : ∀ buf : List Nat,
    buf.length + xs.length < 4 →
    runB (.crc buf) xs = (.crc (buf ++ xs), .ok []) := by
  induction xs with
  | nil => intro buf h; simp [runB_nil]
  | cons x rest ih =>
    intro buf h
    simp only [List.length_cons] at h
    have h1 := upd1_crc buf x (by omega)
    rw [if_neg (by simp; omega)] at h1
    have hs : stepB (.crc buf) x = (.crc (buf ++ [x]), .ok []) := by
      have := stepB_one _ _ _ _ h1
      simpa using this
    rw [runB_cons]
    simp only [hs]
    rw [ih (buf ++ [x]) (by simp; omega)]
    simp [dTokens, Except.map]

/-- Helper: byte-run of the check-value state when the input completes the
4 check bytes: a `tEnd` token is emitted and the run returns to the
chunk-header state. -/
theorem runB_crc_full (xs : List Nat) : ∀ buf : List Nat,
    buf.length < 4 → 4 ≤ buf.length + xs.length →
    runB (.crc buf) xs =
      ((runB (.chunkHeader []) (xs.drop (4 - buf.length))).1,
       (runB (.chunkHeader []) (xs.drop (4 - buf.length))).2.map
         (fun ts => .tEnd :: ts)) := by
  induction xs with
  | nil =>
    intro buf hlt hge
    simp at hge
    omega
  | cons x rest ih =>
    intro buf hlt hge
    rcases Nat.lt_or_ge (buf.length + 1) 4 with h3 | h3
    · have h1 := upd1_crc buf x hlt
      rw [if_neg (by simp; omega)] at h1
      have hs : stepB (.crc buf) x = (.crc (buf ++ [x]), .ok []) := by
        have := stepB_one _ _ _ _ h1
        simpa using this
      rw [runB_cons]
      simp only [hs]
      rw [ih (buf ++ [x]) (by simp; omega) (by simp; simp at hge; omega)]
      have hk : 4 - buf.length = (4 - (buf ++ [x]).length) + 1 := by
        simp; omega
      have hd : (x :: rest).drop (4 - buf.length) =
          rest.drop (4 - (buf ++ [x]).length) := by
        rw [hk]
        simp
      rw [hd]
      simp [dTokens, except_map_id]
    · have hlen3 : buf.length = 3 := by omega
      have h1 := upd1_crc buf x hlt
      rw [if_pos (by simp; omega)] at h1
      have hs : stepB (.crc buf) x = (.chunkHeader [], .ok [.endChunk]) := by
        have := stepB_one _ _ _ _ h1
        simpa using this
      have hk : 4 - buf.length = 1 := by omega
      rw [runB_cons]
      simp only [hs]
      rw [hk]
      simp [dTokens, dTokensOfEvent]

/-- Helper: byte-run of the signature state over a matching partial prefix
that does not complete the signature. -/
theorem runB_sig_small (xs : List Nat) : ∀ pos : Nat, pos < 8 →
    pos + xs.length < 8 →
    xs = (PNG_SIGNATURE.drop pos).take xs.length →
    runB (.pngSignature pos) xs = (.pngSignature (pos + xs.length), .ok []) := by
  induction xs with
  | nil => intro pos h8 hlen _; simp [runB_nil]
  | cons x rest ih =>
    intro pos h8 hlen hpre
    rw [sig_drop_cons pos h8] at hpre
    simp only [List.length_cons, List.take_succ_cons, List.cons.injEq] at hpre
    have h1 := upd1_sig_ok pos x h8 hpre.1
    rw [if_neg (by simp at hlen; omega)] at h1
    have hs : stepB (.pngSignature pos) x = (.pngSignature (pos + 1), .ok []) := by
      have := stepB_one _ _ _ _ h1
      simpa using this
    rw [runB_cons]
    simp only [hs]
    rw [ih (pos + 1) (by simp at hlen; omega) (by simp at hlen ⊢; omega) hpre.2]
    simp only [List.length_cons]
    have : pos + 1 + rest.length = pos + (rest.length + 1) := by omega
    simp [this, dTokens, Except.map]

/-- Helper: byte-run of the signature state when the input completes the
signature with all compared bytes matching: the run continues in the
chunk-header state. -/
theorem runB_sig_full (xs : List Nat) : ∀ pos : Nat, pos < 8 →
    8 ≤ pos + xs.length →
    xs.take (8 - pos) = PNG_SIGNATURE.drop pos →
    runB (.pngSignature pos) xs = runB (.chunkHeader []) (xs.drop (8 - pos)) := by
  induction xs with
  | nil => intro pos h8 hlen _; simp at hlen; omega
  | cons x rest ih =>
    intro pos h8 hlen hpre
    rw [sig_drop_cons pos h8] at hpre
    have hk : 8 - pos = (8 - (pos + 1)) + 1 := by omega
    rw [hk, List.take_succ_cons, List.cons.injEq] at hpre
    have h1 := upd1_sig_ok pos x h8 hpre.1
    rcases Nat.lt_or_ge (pos + 1) 8 with h7 | h7
    · rw [if_neg (by omega)] at h1
      have hs : stepB (.pngSignature pos) x = (.pngSignature (pos + 1), .ok []) := by
        have := stepB_one _ _ _ _ h1
        simpa using this
      rw [runB_cons]
      simp only [hs]
      rw [ih (pos + 1) h7 (by simp at hlen ⊢; omega) hpre.2]
      rw [hk, List.drop_succ_cons]
      rw [show (fun ts : List DTok => dTokens [] ++ ts) = fun ts => ts from rfl,
        except_map_id]
    · rw [if_pos (by omega)] at h1
      have hs : stepB (.pngSignature pos) x = (.chunkHeader [], .ok []) := by
        have := stepB_one _ _ _ _ h1
        simpa using this
      rw [runB_cons]
      simp only [hs]
      have hk1 : 8 - pos = 1 := by omega
      rw [hk1, List.drop_succ_cons, List.drop_zero]
      rw [show (fun ts : List DTok => dTokens [] ++ ts) = fun ts => ts from rfl,
        except_map_id]

/-- Helper: byte-run of the signature state when some compared byte
mismatches: the run fails. -/
theorem runB_sig_err (xs : List Nat) : ∀ pos : Nat, pos < 8 →
    xs.take (min xs.length (8 - pos)) ≠
      (PNG_SIGNATURE.drop pos).take (min xs.length (8 - pos)) →
    ∃ st e, runB (.pngSignature pos) xs = (st, .error e) := by
  induction xs with
  | nil => intro pos h8 hne; simp at hne
  | cons x rest ih =>
    intro pos h8 hne
    by_cases hx : x = PNG_SIGNATURE.getD pos 0
    · -- head matches, so the mismatch is further in
      have h1 := upd1_sig_ok pos x h8 hx
      rcases Nat.lt_or_ge (pos + 1) 8 with h7 | h7
      · rw [if_neg (by omega)] at h1
        have hs : stepB (.pngSignature pos) x = (.pngSignature (pos + 1), .ok []) := by
          have := stepB_one _ _ _ _ h1
          simpa using this
        have hne' : rest.take (min rest.length (8 - (pos + 1))) ≠
            (PNG_SIGNATURE.drop (pos + 1)).take (min rest.length (8 - (pos + 1))) := by
          intro heq
          apply hne
          have hm : min (x :: rest).length (8 - pos) =
              (min rest.length (8 - (pos + 1))) + 1 := by
            simp
            omega
          rw [hm, List.take_succ_cons, sig_drop_cons pos h8, List.take_succ_cons,
            hx, heq]
        obtain ⟨st, e, hrun⟩ := ih (pos + 1) h7 hne'
        refine ⟨st, e, ?_⟩
        rw [runB_cons]
        simp only [hs]
        rw [hrun]
        rfl
      · -- the head byte completes the signature, so the compared region is
        -- the single matching head: contradiction with the mismatch
        exfalso
        apply hne
        have hm : min (x :: rest).length (8 - pos) = 1 := by
          simp
          omega
        rw [hm, sig_drop_cons pos h8]
        simp [hx]
    · -- head mismatch: the very first update call fails
      have h1 := upd1_sig_err pos x h8 hx
      have hs : stepB (.pngSignature pos) x =
          (.pngSignature pos, .error (.lib .InvalidPngSignature)) :=
        stepB_err _ _ _ _ h1
      exact ⟨.pngSignature pos, .lib .InvalidPngSignature, by rw [runB_cons]; simp only [hs]⟩


/-- Helper: mapping over an error leaves the error unchanged. -/
theorem except_map_error {α β ε : Type} (f : α → β) (e : ε) :
    (Except.error e : Except ε α).map f = .error e := rfl

/-- Helper: prepending the same tokens on both sides preserves the
token-level agreement of a drain result with a reference result. -/
theorem combine_tok (a : Except PErr (List Dechunker.Event))
    (b : Except PErr (List DTok)) (evs₀ : List Dechunker.Event)
    (ts₀ : List DTok) (h : a.map dTokens = b) (htok : dTokens evs₀ = ts₀) :
    (a.map (fun evs => evs₀ ++ evs)).map dTokens =
      b.map (fun ts => ts₀ ++ ts) := by
  subst h
  cases a <;> simp [Except.map, dTokens_append, htok]

/-- Helper: an empty token prefix on the drain side preserves token-level
agreement. -/
theorem combine_tok_nil (a : Except PErr (List Dechunker.Event))
    (b : Except PErr (List DTok)) (h : a.map dTokens = b) :
    (a.map (fun evs => [] ++ evs)).map dTokens = b := by
  subst h
  cases a <;> simp [Except.map]

/-- Helper: the rank of a dechunker state is at most one. -/
theorem rkD_le_one (d : Dechunker.State) : rkD d ≤ 1 := by
  cases d with
  | inChunk r => cases r <;> simp [rkD]
  | pngSignature pos => simp [rkD]
  | chunkHeader buf => simp [rkD]
  | crc buf => simp [rkD]

/-- Helper: a drain on the empty remainder finishes in its start state with
no events, extracted from the induction hypothesis. -/
theorem drain_nil_of_ih (fuel : Nat) (d' : Dechunker.State)
    (hIH : ((drainDAux fuel d' []).1 = (runB d' []).1 ∧
        (drainDAux fuel d' []).2.map dTokens = (runB d' []).2) ∨
      ((∃ e, (drainDAux fuel d' []).2 = .error e) ∧
       (∃ e, (runB d' []).2 = .error e))) :
    (drainDAux fuel d' []).1 = d' ∧
      (drainDAux fuel d' []).2.map dTokens = .ok [] := by
  rw [runB_nil] at hIH
  rcases hIH with ⟨h1, h2⟩ | ⟨_, ⟨e, habs⟩⟩
  · exact ⟨h1, h2⟩
  · simp at habs

/-- Helper: the fuelled slice drain agrees with the byte-at-a-time reference
run from every reachable state, given fuel at least `2*len + rank + 1`:
either both succeed with the same final state and the same token stream, or
both fail. -/
theorem drain_runB (fuel : Nat) : ∀ (xs : List Nat) (d : Dechunker.State),
    DInv d → 2 * xs.length + rkD d + 1 ≤ fuel →
    ((drainDAux fuel d xs).1 = (runB d xs).1 ∧
     (drainDAux fuel d xs).2.map dTokens = (runB d xs).2) ∨
    ((∃ e, (drainDAux fuel d xs).2 = .error e) ∧
     (∃ e, (runB d xs).2 = .error e)) := by
  induction fuel with
  | zero => intro xs d _ hfuel; omega
  | succ fuel ih =>
    intro xs d hInv hfuel
    by_cases hxs : xs = []
    · subst hxs
      left
      simp [drainDAux_nil, runB_nil, dTokens, Except.map]
    · have hemp : ¬ (xs.isEmpty = true) := by simp [hxs]
      have hxs1 : 1 ≤ xs.length := by
        cases xs with
        | nil => exact absurd rfl hxs
        | cons a l => simp
      rcases hupd : Dechunker.update d xs with ⟨d', res⟩
      rcases res with e | nev
      · -- the update call failed: only the signature state errors
        have hD : drainDAux (fuel + 1) d xs = (d', .error (.lib e)) := by
          rw [drainDAux_succ, if_neg hemp, hupd]
        obtain ⟨hd', he, pos, hpos⟩ := upd_error d xs d' e hupd
        subst hpos
        have hpos8 : pos < 8 := hInv
        simp only [Dechunker.update,
          show PNG_SIGNATURE.length = 8 from rfl] at hupd
        split at hupd
        · rename_i hcond
          obtain ⟨st, e', hrun⟩ := runB_sig_err xs pos hpos8 hcond
          right
          exact ⟨⟨.lib e, by rw [hD]⟩, ⟨e', by rw [hrun]⟩⟩
        · split at hupd <;> simp at hupd
      · obtain ⟨n, ev⟩ := nev
        have hD : drainDAux (fuel + 1) d xs =
            ((drainDAux fuel d' (xs.drop n)).1,
             (drainDAux fuel d' (xs.drop n)).2.map
               (fun evs => ev.toList ++ evs)) := by
          rw [drainDAux_succ, if_neg hemp, hupd]
        have hInv' : DInv d' := DInv_update d xs d' n ev hInv hupd
        have hnle : n ≤ xs.length := upd_consumed_le d xs d' n ev hupd
        by_cases hn : n = 0
        · -- zero-length-chunk transition
          subst hn
          obtain ⟨hdic, hd'c, hevn⟩ := upd_progress d xs d' ev hInv hxs hupd
          subst hdic
          subst hd'c
          subst hevn
          obtain ⟨x, rest, rfl⟩ := List.exists_cons_of_ne_nil hxs
          have hR : runB (.inChunk 0) (x :: rest) = runB (.crc []) (x :: rest) :=
            runB_inChunk_zero x rest
          have hIH := ih (x :: rest) (.crc []) (by simp [DInv]) (by
            simp only [show rkD (.inChunk 0) = 1 from rfl] at hfuel
            simp only [show rkD (.crc []) = 0 from rfl]
            omega)
          rw [hD, hR]
          simp only [List.drop_zero]
          rcases hIH with ⟨h1, h2⟩ | ⟨⟨e1, he1⟩, ⟨e2, he2⟩⟩
          · left
            exact ⟨h1, combine_tok_nil _ _ h2⟩
          · right
            exact ⟨⟨e1, by rw [he1]; rfl⟩, ⟨e2, he2⟩⟩
        · -- at least one byte was consumed
          have hn1 : 1 ≤ n := by omega
          have hIH := ih (xs.drop n) d' hInv' (by
            have hr1 := rkD_le_one d'
            simp only [List.length_drop]
            omega)
          cases d with
          | pngSignature pos =>
            have hpos8 : pos < 8 := hInv
            simp only [Dechunker.update,
              show PNG_SIGNATURE.length = 8 from rfl] at hupd
            split at hupd
            · simp at hupd
            · rename_i hcond
              simp only [ne_eq, not_not] at hcond
              split at hupd
              · rename_i h8eq
                simp only [Prod.mk.injEq, Except.ok.injEq] at hupd
                obtain ⟨hst, hnn, hev⟩ := hupd
                subst hst
                subst hnn
                subst hev
                have hmin : min xs.length (8 - pos) = 8 - pos := by omega
                rw [hmin] at hD hIH hcond
                have h8le : 8 ≤ pos + xs.length := by omega
                have htake : xs.take (8 - pos) = PNG_SIGNATURE.drop pos := by
                  rw [hcond]
                  apply List.take_of_length_le
                  simp [show PNG_SIGNATURE.length = 8 from rfl]
                have hR := runB_sig_full xs pos hpos8 h8le htake
                rw [hD, hR]
                rcases hIH with ⟨h1, h2⟩ | ⟨⟨e1, he1⟩, ⟨e2, he2⟩⟩
                · left
                  exact ⟨h1, combine_tok_nil _ _ h2⟩
                · right
                  exact ⟨⟨e1, by rw [he1]; rfl⟩, ⟨e2, he2⟩⟩
              · rename_i h8ne
                simp only [Prod.mk.injEq, Except.ok.injEq] at hupd
                obtain ⟨hst, hnn, hev⟩ := hupd
                subst hst
                subst hnn
                subst hev
                have hmin : min xs.length (8 - pos) = xs.length := by omega
                rw [hmin] at hD hIH hcond
                rw [List.drop_length] at hD hIH
                obtain ⟨hq1, hq2⟩ := drain_nil_of_ih fuel _ hIH
                have hlen8 : pos + xs.length < 8 := by omega
                have hpre : xs = (PNG_SIGNATURE.drop pos).take xs.length := by
                  rw [← hcond, List.take_length]
                have hR := runB_sig_small xs pos hpos8 hlen8 hpre
                rw [hD, hR]
                left
                exact ⟨hq1, combine_tok_nil _ _ hq2⟩
          | chunkHeader buf =>
            have hbuf8 : buf.length < 8 := hInv
            simp only [Dechunker.update,
              show CHUNK_HEADER_SIZE = 8 from rfl] at hupd
            split at hupd
            · rename_i hfull
              simp only [List.length_append, List.length_take] at hfull
              simp only [Prod.mk.injEq, Except.ok.injEq] at hupd
              obtain ⟨hst, hnn, hev⟩ := hupd
              subst hst
              subst hnn
              subst hev
              have hmin : min xs.length (8 - buf.length) = 8 - buf.length := by
                omega
              rw [hmin] at hD hIH
              have h8le : 8 ≤ buf.length + xs.length := by omega
              have hR := runB_chunkHeader_full xs buf
                (buf ++ xs.take (8 - buf.length)) hbuf8 h8le rfl
              rw [hD, hR]
              rcases hIH with ⟨h1, h2⟩ | ⟨⟨e1, he1⟩, ⟨e2, he2⟩⟩
              · left
                refine ⟨h1, ?_⟩
                exact combine_tok _ _
                  [.beginChunk (beU32 ((buf ++ xs.take (8 - buf.length)).take 4))
                    (((buf ++ xs.take (8 - buf.length)).drop 4).take 4)]
                  [.tBegin (beU32 ((buf ++ xs.take (8 - buf.length)).take 4))
                    (((buf ++ xs.take (8 - buf.length)).drop 4).take 4)]
                  h2 (by simp [dTokens, dTokensOfEvent])
              · right
                exact ⟨⟨e1, by rw [he1]; rfl⟩, ⟨e2, by rw [he2]; rfl⟩⟩
            · rename_i hnotfull
              simp only [List.length_append, List.length_take] at hnotfull
              simp only [Prod.mk.injEq, Except.ok.injEq] at hupd
              obtain ⟨hst, hnn, hev⟩ := hupd
              subst hst
              subst hnn
              subst hev
              have hmin : min xs.length (8 - buf.length) = xs.length := by omega
              rw [hmin] at hD hIH
              rw [List.drop_length] at hD hIH
              rw [List.take_length] at hD hIH
              obtain ⟨hq1, hq2⟩ := drain_nil_of_ih fuel _ hIH
              have hlen8 : buf.length + xs.length < 8 := by omega
              have hR := runB_chunkHeader_small xs buf hlen8
              rw [hD, hR]
              left
              exact ⟨hq1, combine_tok_nil _ _ hq2⟩
          | inChunk r =>
            simp only [Dechunker.update] at hupd
            simp only [Prod.mk.injEq, Except.ok.injEq] at hupd
            obtain ⟨hst, hnn, hev⟩ := hupd
            subst hnn
            subst hev
            subst hst
            have hr1 : 1 ≤ r := by omega
            have hr0 : ¬ (min xs.length r = 0) := hn
            by_cases hrle : r ≤ xs.length
            · have hmin : min xs.length r = r := by omega
              rw [hmin] at hD hIH hr0
              rw [if_pos rfl] at hD hIH
              rw [if_neg (by omega : ¬ (r = 0))] at hD
              have hR := runB_inChunk_large xs r (by omega) hrle
              rw [hD, hR]
              rcases hIH with ⟨h1, h2⟩ | ⟨⟨e1, he1⟩, ⟨e2, he2⟩⟩
              · left
                refine ⟨h1, ?_⟩
                exact combine_tok _ _ [.data (xs.take r)]
                  ((xs.take r).map .tByte) h2
                  (by simp [dTokens, dTokensOfEvent])
              · right
                exact ⟨⟨e1, by rw [he1]; rfl⟩, ⟨e2, by rw [he2]; rfl⟩⟩
            · have hxlt : xs.length < r := by omega
              have hmin : min xs.length r = xs.length := by omega
              rw [hmin] at hD hIH hr0
              rw [if_neg (by omega : ¬ (r = xs.length))] at hD hIH
              rw [if_neg hr0] at hD
              rw [List.drop_length] at hD hIH
              rw [List.take_length] at hD
              obtain ⟨hq1, hq2⟩ := drain_nil_of_ih fuel _ hIH
              have hR := runB_inChunk_small xs r hxlt
              rw [hD, hR]
              left
              refine ⟨hq1, ?_⟩
              have := combine_tok _ _ [.data xs] (xs.map .tByte) hq2
                (by simp [dTokens, dTokensOfEvent])
              simpa [Except.map] using this
          | crc buf =>
            have hbuf4 : buf.length < 4 := hInv
            simp only [Dechunker.update,
              show CRC_SIZE = 4 from rfl] at hupd
            split at hupd
            · rename_i hfull
              simp only [List.length_append, List.length_take] at hfull
              simp only [Prod.mk.injEq, Except.ok.injEq] at hupd
              obtain ⟨hst, hnn, hev⟩ := hupd
              subst hst
              subst hnn
              subst hev
              have hmin : min xs.length (4 - buf.length) = 4 - buf.length := by
                omega
              rw [hmin] at hD hIH
              have h4le : 4 ≤ buf.length + xs.length := by omega
              have hR := runB_crc_full xs buf hbuf4 h4le
              rw [hD, hR]
              rcases hIH with ⟨h1, h2⟩ | ⟨⟨e1, he1⟩, ⟨e2, he2⟩⟩
              · left
                exact ⟨h1, combine_tok _ _ [.endChunk] [.tEnd] h2
                  (by simp [dTokens, dTokensOfEvent])⟩
              · right
                exact ⟨⟨e1, by rw [he1]; rfl⟩, ⟨e2, by rw [he2]; rfl⟩⟩
            · rename_i hnotfull
              simp only [List.length_append, List.length_take] at hnotfull
              simp only [Prod.mk.injEq, Except.ok.injEq] at hupd
              obtain ⟨hst, hnn, hev⟩ := hupd
              subst hst
              subst hnn
              subst hev
              have hmin : min xs.length (4 - buf.length) = xs.length := by omega
              rw [hmin] at hD hIH
              rw [List.drop_length] at hD hIH
              rw [List.take_length] at hD hIH
              obtain ⟨hq1, hq2⟩ := drain_nil_of_ih fuel _ hIH
              have hlen4 : buf.length + xs.length < 4 := by omega
              have hR := runB_crc_small xs buf hlen4
              rw [hD, hR]
              left
              exact ⟨hq1, combine_tok_nil _ _ hq2⟩

/-- Helper: the slice drain with its built-in fuel agrees with the
byte-at-a-time reference run from every reachable state. -/
theorem drainD_runB (d : Dechunker.State) (xs : List Nat) (hInv : DInv d) :
    ((drainD d xs).1 = (runB d xs).1 ∧
     (drainD d xs).2.map dTokens = (runB d xs).2) ∨
    ((∃ e, (drainD d xs).2 = .error e) ∧
     (∃ e, (runB d xs).2 = .error e)) :=
  drain_runB (2 * xs.length + 2) xs d hInv
    (by have := rkD_le_one d; omega)

/-- Helper: unfolding of the reference run on a successful byte step. -/
theorem runB_cons_ok (d : Dechunker.State) (b : Nat) (bs : List Nat)
    (d' : Dechunker.State) (evs : List Dechunker.Event)
    (h : stepB d b = (d', .ok evs)) :
    runB d (b :: bs) =
      ((runB d' bs).1, (runB d' bs).2.map (fun ts => dTokens evs ++ ts)) := by
  rw [runB_cons, h]

/-- Helper: unfolding of the reference run on a failing byte step. -/
theorem runB_cons_err (d : Dechunker.State) (b : Nat) (bs : List Nat)
    (d' : Dechunker.State) (e : PErr) (h : stepB d b = (d', .error e)) :
    runB d (b :: bs) = (d', .error e) := by
  rw [runB_cons, h]

/-- Helper: the reference run splits over input concatenation. -/
theorem runB_append (xs ys : List Nat) : ∀ d : Dechunker.State,
    runB d (xs ++ ys) =
      (match runB d xs with
       | (d₁, .error e) => (d₁, .error e)
       | (d₁, .ok ts) =>
         ((runB d₁ ys).1, (runB d₁ ys).2.map (fun ts₂ => ts ++ ts₂))) := by
  induction xs with
  | nil =>
    intro d
    rw [List.nil_append]
    show runB d ys =
      ((runB d ys).1, Except.map (fun ts₂ => [] ++ ts₂) (runB d ys).2)
    rw [show (fun ts₂ : List DTok => [] ++ ts₂) = fun ts => ts from rfl,
      except_map_id]
  | cons x xs ih =>
    intro d
    rcases hstep : stepB d x with ⟨d', re⟩
    rcases re with e | evs
    · rw [List.cons_append, runB_cons_err d x (xs ++ ys) d' e hstep,
        runB_cons_err d x xs d' e hstep]
    · rw [List.cons_append, runB_cons_ok d x (xs ++ ys) d' evs hstep,
        runB_cons_ok d x xs d' evs hstep, ih d']
      cases hx : runB d' xs with
      | mk d₁ rx =>
        cases rx with
        | error e => simp [hx, Except.map]
        | ok ts =>
          cases hy : runB d₁ ys with
          | mk d₂ ry =>
            cases ry with
            | error e => simp [hx, hy, Except.map]
            | ok ts₂ => simp [hx, hy, Except.map, List.append_assoc]

/-- Helper: the reachability invariant is preserved by a successful fuelled
drain. -/
theorem drain_DInv (fuel : Nat) : ∀ (xs : List Nat) (d : Dechunker.State),
    DInv d → ∀ evs, (drainDAux fuel d xs).2 = .ok evs →
    DInv (drainDAux fuel d xs).1 := by
  induction fuel with
  | zero => intro xs d _ evs h; simp [drainDAux] at h
  | succ fuel ih =>
    intro xs d hInv evs h
    by_cases hxs : xs = []
    · subst hxs
      rw [drainDAux_nil]
      exact hInv
    · have hemp : ¬ (xs.isEmpty = true) := by simp [hxs]
      rcases hupd : Dechunker.update d xs with ⟨d', res⟩
      rcases res with e | nev
      · rw [drainDAux_succ, if_neg hemp, hupd] at h
        simp at h
      · obtain ⟨n, ev⟩ := nev
        have hD : drainDAux (fuel + 1) d xs =
            ((drainDAux fuel d' (xs.drop n)).1,
             (drainDAux fuel d' (xs.drop n)).2.map
               (fun evs => ev.toList ++ evs)) := by
          rw [drainDAux_succ, if_neg hemp, hupd]
        rw [hD] at h ⊢
        have hInv' : DInv d' := DInv_update d xs d' n ev hInv hupd
        rcases hr : (drainDAux fuel d' (xs.drop n)).2 with e | evs'
        · rw [hr] at h
          simp [Except.map] at h
        · exact ih (xs.drop n) d' hInv' evs' hr

/-- Helper: `Data` events emitted by one `update` call are never empty. -/
theorem upd_WF (d : Dechunker.State) (xs : List Nat) (d' : Dechunker.State)
    (n : Nat) (ev : Option Dechunker.Event)
    (h : Dechunker.update d xs = (d', .ok (n, ev))) :
    ∀ e ∈ ev.toList, DEventWF e := by
  have hnle := upd_consumed_le d xs d' n ev h
  cases d with
  | pngSignature pos =>
    simp only [Dechunker.update] at h
    split at h
    · simp at h
    · split at h <;>
        (simp only [Prod.mk.injEq, Except.ok.injEq] at h;
         rcases h with ⟨h1, h2, h3⟩; subst h3; simp)
  | chunkHeader buf =>
    simp only [Dechunker.update] at h
    split at h <;>
      (simp only [Prod.mk.injEq, Except.ok.injEq] at h;
       rcases h with ⟨h1, h2, h3⟩; subst h3) <;>
      simp [DEventWF]
  | inChunk r =>
    simp only [Dechunker.update] at h
    simp only [Prod.mk.injEq, Except.ok.injEq] at h
    rcases h with ⟨h1, h2, h3⟩
    subst h3
    subst h2
    split
    · simp
    · rename_i hne
      intro e he
      simp only [Option.toList_some, List.mem_singleton] at he
      subst he
      show xs.take (min xs.length r) ≠ []
      intro habs
      have hlen := congrArg List.length habs
      rw [List.length_take] at hlen
      simp only [List.length_nil] at hlen
      omega
  | crc buf =>
    simp only [Dechunker.update] at h
    split at h <;>
      (simp only [Prod.mk.injEq, Except.ok.injEq] at h;
       rcases h with ⟨h1, h2, h3⟩; subst h3) <;>
      simp [DEventWF]

/-- Helper: every event emitted by a successful fuelled drain is
well-formed. -/
theorem drain_WF (fuel : Nat) : ∀ (xs : List Nat) (d : Dechunker.State)
    (evs : List Dechunker.Event), (drainDAux fuel d xs).2 = .ok evs →
    ∀ e ∈ evs, DEventWF e := by
  induction fuel with
  | zero => intro xs d evs h; simp [drainDAux] at h
  | succ fuel ih =>
    intro xs d evs h
    by_cases hxs : xs = []
    · subst hxs
      rw [drainDAux_nil] at h
      simp at h
      subst h
      simp
    · have hemp : ¬ (xs.isEmpty = true) := by simp [hxs]
      rcases hupd : Dechunker.update d xs with ⟨d', res⟩
      rcases res with e | nev
      · rw [drainDAux_succ, if_neg hemp, hupd] at h
        simp at h
      · obtain ⟨n, ev⟩ := nev
        have hD : drainDAux (fuel + 1) d xs =
            ((drainDAux fuel d' (xs.drop n)).1,
             (drainDAux fuel d' (xs.drop n)).2.map
               (fun evs => ev.toList ++ evs)) := by
          rw [drainDAux_succ, if_neg hemp, hupd]
        rw [hD] at h
        rcases hr : (drainDAux fuel d' (xs.drop n)).2 with e | evs'
        · rw [hr] at h
          simp [Except.map] at h
        · rw [hr] at h
          simp only [Except.map, Except.ok.injEq] at h
          subst h
          intro e he
          rcases List.mem_append.mp he with h1 | h2
          · exact upd_WF d xs d' n ev hupd e h1
          · exact ih (xs.drop n) d' evs' hr e h2

/-- Helper: the reachability invariant survives a successful slice drain. -/
theorem drainD_DInv (d : Dechunker.State) (xs : List Nat)
    (evs : List Dechunker.Event) (hInv : DInv d)
    (h : (drainD d xs).2 = .ok evs) : DInv (drainD d xs).1 :=
  drain_DInv (2 * xs.length + 2) xs d hInv evs h

/-- Helper: every event of a successful slice drain is well-formed. -/
theorem drainD_WF (d : Dechunker.State) (xs : List Nat)
    (evs : List Dechunker.Event) (h : (drainD d xs).2 = .ok evs) :
    ∀ e ∈ evs, DEventWF e :=
  drain_WF (2 * xs.length + 2) xs d evs h

/-- Helper: the reference run after an already successful prefix run. -/
theorem runB_append_ok (xs ys : List Nat) (d d₁ : Dechunker.State)
    (ts : List DTok) (h : runB d xs = (d₁, .ok ts)) :
    runB d (xs ++ ys) =
      ((runB d₁ ys).1, (runB d₁ ys).2.map (fun ts₂ => ts ++ ts₂)) := by
  rw [runB_append xs ys d, h]

/-- Helper: the reference run after an already failing prefix run. -/
theorem runB_append_err (xs ys : List Nat) (d d₁ : Dechunker.State)
    (e : PErr) (h : runB d xs = (d₁, .error e)) :
    runB d (xs ++ ys) = (d₁, .error e) := by
  rw [runB_append xs ys d, h]

/-- Helper: unfolding of the multi-slice drain on a successful slice. -/
theorem drainSlices_cons_ok (d : Dechunker.State) (s : List Nat)
    (ss : List (List Nat)) (d₁ : Dechunker.State)
    (evs : List Dechunker.Event) (h : drainD d s = (d₁, .ok evs)) :
    drainSlices d (s :: ss) =
      ((drainSlices d₁ ss).1,
       (drainSlices d₁ ss).2.map (fun evs2 => evs ++ evs2)) := by
  show (match drainD d s with
    | (d', Except.error e) => (d', Except.error e)
    | (d', Except.ok evs1) =>
      ((drainSlices d' ss).1,
       (drainSlices d' ss).2.map (fun evs2 => evs1 ++ evs2))) = _
  rw [h]

/-- Helper: unfolding of the multi-slice drain on a failing slice. -/
theorem drainSlices_cons_err (d : Dechunker.State) (s : List Nat)
    (ss : List (List Nat)) (d₁ : Dechunker.State) (e : PErr)
    (h : drainD d s = (d₁, .error e)) :
    drainSlices d (s :: ss) = (d₁, .error e) := by
  show (match drainD d s with
    | (d', Except.error e) => (d', Except.error e)
    | (d', Except.ok evs1) =>
      ((drainSlices d' ss).1,
       (drainSlices d' ss).2.map (fun evs2 => evs1 ++ evs2))) = _
  rw [h]

/-- Helper: draining any sequence of slices agrees with the byte-at-a-time
reference run of their concatenation. -/
theorem drainSlices_runB (ss : List (List Nat)) : ∀ d : Dechunker.State,
    DInv d →
    ((drainSlices d ss).1 = (runB d ss.flatten).1 ∧
     (drainSlices d ss).2.map dTokens = (runB d ss.flatten).2) ∨
    ((∃ e, (drainSlices d ss).2 = .error e) ∧
     (∃ e, (runB d ss.flatten).2 = .error e)) := by
  induction ss with
  | nil =>
    intro d _
    left
    constructor
    · rfl
    · show Except.map dTokens (.ok []) = (d, Except.ok ([] : List DTok)).2
      simp [Except.map, dTokens]
  | cons s ss ih =>
    intro d hInv
    rcases hds : drainD d s with ⟨d₁, r₁⟩
    rcases hq : runB d s with ⟨dd, rr⟩
    have hrel := drainD_runB d s hInv
    rw [hds, hq] at hrel
    rcases r₁ with e | evs
    · rw [drainSlices_cons_err d s ss d₁ e hds]
      have herr : ∃ e', rr = .error e' := by
        rcases hrel with ⟨h1, h2⟩ | ⟨_, ⟨e2, he2⟩⟩
        · cases rr with
          | error e' => exact ⟨e', rfl⟩
          | ok ts => exact absurd h2 (by simp [Except.map])
        · cases rr with
          | error e' => exact ⟨e', rfl⟩
          | ok ts => simp at he2
      obtain ⟨e', rfl⟩ := herr
      rw [show (s :: ss).flatten = s ++ ss.flatten from rfl,
        runB_append_err s ss.flatten d dd e' hq]
      right
      exact ⟨⟨e, rfl⟩, ⟨e', rfl⟩⟩
    · rcases hrel with ⟨h1, h2⟩ | ⟨⟨e1, he1⟩, _⟩
      swap
      · simp at he1
      have h2' : rr = .ok (dTokens evs) := by
        exact h2.symm
      subst h2'
      have h1' : d₁ = dd := by
        simpa using h1
      subst h1'
      rw [drainSlices_cons_ok d s ss d₁ evs hds,
        show (s :: ss).flatten = s ++ ss.flatten from rfl,
        runB_append_ok s ss.flatten d d₁ (dTokens evs) hq]
      have hInv₁ : DInv d₁ := by
        have hqq := drainD_DInv d s evs hInv (by rw [hds])
        rw [hds] at hqq
        exact hqq
      rcases ih d₁ hInv₁ with ⟨g1, g2⟩ | ⟨⟨e1, ge1⟩, ⟨e2, ge2⟩⟩
      · left
        exact ⟨g1, combine_tok _ _ evs (dTokens evs) g2 rfl⟩
      · right
        exact ⟨⟨e1, by rw [ge1]; rfl⟩, ⟨e2, by rw [ge2]; rfl⟩⟩

/-- Helper: the stream decoder never produces a leftover on success (used by
the pipeline correspondence; the same fact is the content of claim C7). -/
theorem sdLeftoverNone (sd : StreamDecoder) (ev : Dechunker.Event)
    (sd' : StreamDecoder) (lo : Option Dechunker.Event)
    (out : Option StreamDecoder.Event)
    (h : StreamDecoder.update sd ev = (sd', .ok lo out)) : lo = none := by
  rcases sd with ⟨st, pal⟩
  cases st <;> cases ev <;>
    simp only [StreamDecoder.update] at h <;>
    (repeat' split at h) <;>
    simp_all [Prod.ext_iff]

/-- Helper: one stream-decoder feed on a successful update call. -/
theorem sdFeed_ok (d : StreamDecoder) (ev : Dechunker.Event)
    (d' : StreamDecoder) (out : Option StreamDecoder.Event)
    (h : StreamDecoder.update d ev = (d', .ok none out)) :
    sdFeed d ev = (d', .ok out.toList) := by
  show (match StreamDecoder.update d ev with
    | (d', StepRes.err e) => (d', Except.error (PErr.lib e))
    | (d', StepRes.panicked) => (d', Except.error PErr.panicked)
    | (d', StepRes.ok none out) => (d', Except.ok out.toList)
    | (d', StepRes.ok (some ev₂) out) =>
      match StreamDecoder.update d' ev₂ with
      | (d'', StepRes.err e) => (d'', Except.error (PErr.lib e))
      | (d'', StepRes.panicked) => (d'', Except.error PErr.panicked)
      | (d'', StepRes.ok none out₂) =>
        (d'', Except.ok (out.toList ++ out₂.toList))
      | (d'', StepRes.ok (some _) _) => (d'', Except.error PErr.stuck)) = _
  rw [h]

/-- Helper: one stream-decoder feed on a failing update call. -/
theorem sdFeed_err (d : StreamDecoder) (ev : Dechunker.Event)
    (d' : StreamDecoder) (e : Error)
    (h : StreamDecoder.update d ev = (d', .err e)) :
    sdFeed d ev = (d', .error (.lib e)) := by
  show (match StreamDecoder.update d ev with
    | (d', StepRes.err e) => (d', Except.error (PErr.lib e))
    | (d', StepRes.panicked) => (d', Except.error PErr.panicked)
    | (d', StepRes.ok none out) => (d', Except.ok out.toList)
    | (d', StepRes.ok (some ev₂) out) =>
      match StreamDecoder.update d' ev₂ with
      | (d'', StepRes.err e) => (d'', Except.error (PErr.lib e))
      | (d'', StepRes.panicked) => (d'', Except.error PErr.panicked)
      | (d'', StepRes.ok none out₂) =>
        (d'', Except.ok (out.toList ++ out₂.toList))
      | (d'', StepRes.ok (some _) _) => (d'', Except.error PErr.stuck)) = _
  rw [h]

/-- Helper: one stream-decoder feed on a panicking update call. -/
theorem sdFeed_panic (d : StreamDecoder) (ev : Dechunker.Event)
    (d' : StreamDecoder) (h : StreamDecoder.update d ev = (d', .panicked)) :
    sdFeed d ev = (d', .error .panicked) := by
  show (match StreamDecoder.update d ev with
    | (d', StepRes.err e) => (d', Except.error (PErr.lib e))
    | (d', StepRes.panicked) => (d', Except.error PErr.panicked)
    | (d', StepRes.ok none out) => (d', Except.ok out.toList)
    | (d', StepRes.ok (some ev₂) out) =>
      match StreamDecoder.update d' ev₂ with
      | (d'', StepRes.err e) => (d'', Except.error (PErr.lib e))
      | (d'', StepRes.panicked) => (d'', Except.error PErr.panicked)
      | (d'', StepRes.ok none out₂) =>
        (d'', Except.ok (out.toList ++ out₂.toList))
      | (d'', StepRes.ok (some _) _) => (d'', Except.error PErr.stuck)) = _
  rw [h]

/-- Helper: unfolding of the stream-decoder run on a successful feed. -/
theorem sdRunMany_cons_ok (d : StreamDecoder) (ev : Dechunker.Event)
    (evs : List Dechunker.Event) (d' : StreamDecoder)
    (outs : List StreamDecoder.Event) (h : sdFeed d ev = (d', .ok outs)) :
    sdRunMany d (ev :: evs) =
      ((sdRunMany d' evs).1,
       (sdRunMany d' evs).2.map (fun os => outs ++ os)) := by
  show (match sdFeed d ev with
    | (d', Except.error e) => (d', Except.error e)
    | (d', Except.ok outs) =>
      ((sdRunMany d' evs).1,
       (sdRunMany d' evs).2.map (fun os => outs ++ os))) = _
  rw [h]

/-- Helper: unfolding of the stream-decoder run on a failing feed. -/
theorem sdRunMany_cons_err (d : StreamDecoder) (ev : Dechunker.Event)
    (evs : List Dechunker.Event) (d' : StreamDecoder) (e : PErr)
    (h : sdFeed d ev = (d', .error e)) :
    sdRunMany d (ev :: evs) = (d', .error e) := by
  show (match sdFeed d ev with
    | (d', Except.error e) => (d', Except.error e)
    | (d', Except.ok outs) =>
      ((sdRunMany d' evs).1,
       (sdRunMany d' evs).2.map (fun os => outs ++ os))) = _
  rw [h]

/-- Helper: the stream-decoder run splits over event-list concatenation. -/
theorem sdRunMany_append (evs₁ evs₂ : List Dechunker.Event) :
    ∀ d : StreamDecoder,
    sdRunMany d (evs₁ ++ evs₂) =
      (match sdRunMany d evs₁ with
       | (d₁, .error e) => (d₁, .error e)
       | (d₁, .ok outs) =>
         ((sdRunMany d₁ evs₂).1,
          (sdRunMany d₁ evs₂).2.map (fun os => outs ++ os))) := by
  induction evs₁ with
  | nil =>
    intro d
    rw [List.nil_append]
    show sdRunMany d evs₂ =
      ((sdRunMany d evs₂).1,
       Except.map (fun os => [] ++ os) (sdRunMany d evs₂).2)
    rw [show (fun os : List StreamDecoder.Event => [] ++ os) =
      fun os => os from rfl, except_map_id]
  | cons ev evs₁ ih =>
    intro d
    rcases hstep : sdFeed d ev with ⟨d', re⟩
    rcases re with e | outs
    · rw [List.cons_append, sdRunMany_cons_err d ev (evs₁ ++ evs₂) d' e hstep,
        sdRunMany_cons_err d ev evs₁ d' e hstep]
    · rw [List.cons_append, sdRunMany_cons_ok d ev (evs₁ ++ evs₂) d' outs hstep,
        sdRunMany_cons_ok d ev evs₁ d' outs hstep, ih d']
      cases hx : sdRunMany d' evs₁ with
      | mk d₁ rx =>
        cases rx with
        | error e => simp [hx, Except.map]
        | ok os =>
          cases hy : sdRunMany d₁ evs₂ with
          | mk d₂ ry =>
            cases ry with
            | error e => simp [hx, hy, Except.map]
            | ok os₂ => simp [hx, hy, Except.map, List.append_assoc]

/-- Helper: flattened stream tokens of per-byte image-data events. -/
theorem sTokens_unit_bytes (xs : List Nat) :
    sTokens (xs.map (fun b => .imageData [b])) = xs.map STok.sByte := by
  induction xs with
  | nil => rfl
  | cons x rest ih => simp [sTokens, sTokensOfEvent] at ih ⊢; exact ih

/-- Helper: the stream decoder forwards per-byte data events in the
image-data state unchanged. -/
theorem sdUnits_idat (xs : List Nat) : ∀ pal : Palette,
    sdRunMany ⟨.idat, pal⟩ (xs.map (fun b => .data [b])) =
      (⟨.idat, pal⟩, .ok (xs.map (fun b => .imageData [b]))) := by
  induction xs with
  | nil => intro pal; rfl
  | cons x rest ih =>
    intro pal
    have hfeed : sdFeed ⟨.idat, pal⟩ (.data [x]) =
        (⟨.idat, pal⟩, .ok [.imageData [x]]) := sdFeed_ok _ _ _ _ rfl
    rw [List.map_cons, sdRunMany_cons_ok _ _ _ _ _ hfeed, ih pal]
    simp [Except.map]

/-- Helper: the stream decoder drops per-byte data events in the ignored
state. -/
theorem sdUnits_ignored (xs : List Nat) : ∀ pal : Palette,
    sdRunMany ⟨.ignoredChunk, pal⟩ (xs.map (fun b => .data [b])) =
      (⟨.ignoredChunk, pal⟩, .ok []) := by
  induction xs with
  | nil => intro pal; rfl
  | cons x rest ih =>
    intro pal
    have hfeed : sdFeed ⟨.ignoredChunk, pal⟩ (.data [x]) =
        (⟨.ignoredChunk, pal⟩, .ok []) := sdFeed_ok _ _ _ _ rfl
    rw [List.map_cons, sdRunMany_cons_ok _ _ _ _ _ hfeed, ih pal]
    rfl

/-- Helper: per-byte data events accumulate in the IHDR scratch buffer when
the total stays within its 13-byte capacity. -/
theorem sdUnits_ihdr_ok (xs : List Nat) : ∀ (buf : List Nat) (pal : Palette),
    buf.length + xs.length ≤ 13 →
    sdRunMany ⟨.ihdr buf, pal⟩ (xs.map (fun b => .data [b])) =
      (⟨.ihdr (buf ++ xs), pal⟩, .ok []) := by
  induction xs with
  | nil =>
    intro buf pal _
    show (_, _) = _
    simp
  | cons x rest ih =>
    intro buf pal h
    simp only [List.length_cons] at h
    have hupd : StreamDecoder.update ⟨.ihdr buf, pal⟩ (.data [x]) =
        (⟨.ihdr (buf ++ [x]), pal⟩, .ok none none) := by
      simp only [StreamDecoder.update]
      rw [if_neg (by simp [ImageHeader.SIZE]; omega)]
    have hfeed := sdFeed_ok _ _ _ _ hupd
    rw [List.map_cons, sdRunMany_cons_ok _ _ _ _ _ hfeed,
      ih (buf ++ [x]) pal (by simp; omega)]
    simp [Except.map]

/-- Helper: per-byte data events overflow the IHDR scratch buffer exactly
when the total exceeds its capacity, causing the library panic. -/
theorem sdUnits_ihdr_panic (xs : List Nat) : ∀ (buf : List Nat)
    (pal : Palette), 13 < buf.length + xs.length → xs ≠ [] →
    ∃ sd', sdRunMany ⟨.ihdr buf, pal⟩ (xs.map (fun b => .data [b])) =
      (sd', .error .panicked) := by
  induction xs with
  | nil => intro buf pal _ hne; exact absurd rfl hne
  | cons x rest ih =>
    intro buf pal h _
    simp only [List.length_cons] at h
    by_cases hb : 13 < buf.length + 1
    · have hupd : StreamDecoder.update ⟨.ihdr buf, pal⟩ (.data [x]) =
          (⟨.ihdr buf, pal⟩, .panicked) := by
        simp only [StreamDecoder.update]
        rw [if_pos (by simp [ImageHeader.SIZE]; omega)]
      have hfeed := sdFeed_panic _ _ _ hupd
      exact ⟨_, by rw [List.map_cons, sdRunMany_cons_err _ _ _ _ _ hfeed]⟩
    · have hupd : StreamDecoder.update ⟨.ihdr buf, pal⟩ (.data [x]) =
          (⟨.ihdr (buf ++ [x]), pal⟩, .ok none none) := by
        simp only [StreamDecoder.update]
        rw [if_neg (by simp [ImageHeader.SIZE]; omega)]
      have hfeed := sdFeed_ok _ _ _ _ hupd
      have hrest : rest ≠ [] := by
        intro hr
        subst hr
        simp at h
        omega
      obtain ⟨sd', hsd'⟩ := ih (buf ++ [x]) pal (by simp; omega) hrest
      refine ⟨sd', ?_⟩
      rw [List.map_cons, sdRunMany_cons_ok _ _ _ _ _ hfeed, hsd']
      rfl

/-- Helper: per-byte data events accumulate in the palette when the total
stays within its 768-byte capacity. -/
theorem sdUnits_plte_ok (xs : List Nat) : ∀ pal : Palette,
    pal.data.length + xs.length ≤ 768 →
    sdRunMany ⟨.plte, pal⟩ (xs.map (fun b => .data [b])) =
      (⟨.plte, ⟨pal.data ++ xs⟩⟩, .ok []) := by
  induction xs with
  | nil =>
    intro pal _
    show (_, _) = _
    simp
  | cons x rest ih =>
    intro pal h
    simp only [List.length_cons] at h
    have hupd : StreamDecoder.update ⟨.plte, pal⟩ (.data [x]) =
        (⟨.plte, ⟨pal.data ++ [x]⟩⟩, .ok none none) := by
      simp only [StreamDecoder.update]
      rw [if_neg (by simp; omega)]
    have hfeed := sdFeed_ok _ _ _ _ hupd
    rw [List.map_cons, sdRunMany_cons_ok _ _ _ _ _ hfeed,
      ih ⟨pal.data ++ [x]⟩ (by simp; omega)]
    simp [Except.map]

/-- Helper: per-byte data events overflow the palette exactly when the
total exceeds its capacity, causing the library panic. -/
theorem sdUnits_plte_panic (xs : List Nat) : ∀ pal : Palette,
    768 < pal.data.length + xs.length → xs ≠ [] →
    ∃ sd', sdRunMany ⟨.plte, pal⟩ (xs.map (fun b => .data [b])) =
      (sd', .error .panicked) := by
  induction xs with
  | nil => intro pal _ hne; exact absurd rfl hne
  | cons x rest ih =>
    intro pal h _
    simp only [List.length_cons] at h
    by_cases hb : 768 < pal.data.length + 1
    · have hupd : StreamDecoder.update ⟨.plte, pal⟩ (.data [x]) =
          (⟨.plte, pal⟩, .panicked) := by
        simp only [StreamDecoder.update]
        rw [if_pos (by simp; omega)]
      have hfeed := sdFeed_panic _ _ _ hupd
      exact ⟨_, by rw [List.map_cons, sdRunMany_cons_err _ _ _ _ _ hfeed]⟩
    · have hupd : StreamDecoder.update ⟨.plte, pal⟩ (.data [x]) =
          (⟨.plte, ⟨pal.data ++ [x]⟩⟩, .ok none none) := by
        simp only [StreamDecoder.update]
        rw [if_neg (by simp; omega)]
      have hfeed := sdFeed_ok _ _ _ _ hupd
      have hrest : rest ≠ [] := by
        intro hr
        subst hr
        simp at h
        omega
      obtain ⟨sd', hsd'⟩ := ih ⟨pal.data ++ [x]⟩ (by simp; omega) hrest
      refine ⟨sd', ?_⟩
      rw [List.map_cons, sdRunMany_cons_ok _ _ _ _ _ hfeed, hsd']
      rfl

/-- Helper: a single-event stream-decoder run is exactly one feed. -/
theorem sdRun_single (d : StreamDecoder) (ev : Dechunker.Event) :
    sdRunMany d [ev] = sdFeed d ev := by
  rcases hf : sdFeed d ev with ⟨d', r⟩
  cases r with
  | error e => rw [sdRunMany_cons_err _ _ _ _ _ hf]
  | ok outs =>
    rw [sdRunMany_cons_ok _ _ _ _ _ hf]
    simp [sdRunMany, Except.map]

/-- Helper: the unit events of a data event are its per-byte fragments. -/
theorem units_data (xs : List Nat) :
    (dTokensOfEvent (.data xs)).map unitDEvent =
      xs.map (fun b => Dechunker.Event.data [b]) := by
  show (xs.map DTok.tByte).map unitDEvent = _
  rw [List.map_map]
  rfl

/-- Helper: feeding one well-formed chunk event to the stream decoder is
equivalent, up to stream tokens, to feeding its unit-event fragments:
either both succeed with the same final state and token-equal outputs, or
both fail. -/
theorem sdFeed_units (d : StreamDecoder) (ev : Dechunker.Event)
    (hWF : DEventWF ev) :
    (∃ d' o₁ o₂, sdFeed d ev = (d', .ok o₁) ∧
      sdRunMany d ((dTokensOfEvent ev).map unitDEvent) = (d', .ok o₂) ∧
      sTokens o₁ = sTokens o₂) ∨
    ((∃ x, (sdFeed d ev).2 = .error x) ∧
     (∃ y, (sdRunMany d ((dTokensOfEvent ev).map unitDEvent)).2 =
       .error y)) := by
  obtain ⟨st, pal⟩ := d
  cases ev with
  | beginChunk l t =>
    have hu : (dTokensOfEvent (.beginChunk l t)).map unitDEvent =
        [.beginChunk l t] := rfl
    rw [hu, sdRun_single]
    rcases hf : sdFeed ⟨st, pal⟩ (.beginChunk l t) with ⟨d', r⟩
    cases r with
    | ok o => exact .inl ⟨d', o, o, rfl, rfl, rfl⟩
    | error e => exact .inr ⟨⟨e, rfl⟩, ⟨e, rfl⟩⟩
  | endChunk =>
    have hu : (dTokensOfEvent .endChunk).map unitDEvent = [.endChunk] := rfl
    rw [hu, sdRun_single]
    rcases hf : sdFeed ⟨st, pal⟩ .endChunk with ⟨d', r⟩
    cases r with
    | ok o => exact .inl ⟨d', o, o, rfl, rfl, rfl⟩
    | error e => exact .inr ⟨⟨e, rfl⟩, ⟨e, rfl⟩⟩
  | data xs =>
    have hne : xs ≠ [] := hWF
    obtain ⟨x, rest, rfl⟩ := List.exists_cons_of_ne_nil hne
    rw [units_data]
    cases st with
    | beforeChunk =>
      refine .inr ⟨⟨.panicked, ?_⟩, ⟨.panicked, ?_⟩⟩
      · rw [sdFeed_panic ⟨.beforeChunk, pal⟩ (.data (x :: rest))
          ⟨.beforeChunk, pal⟩ rfl]
      · rw [List.map_cons, sdRunMany_cons_err _ _ _ _ _
          (sdFeed_panic ⟨.beforeChunk, pal⟩ (.data [x])
            ⟨.beforeChunk, pal⟩ rfl)]
    | iend =>
      refine .inr ⟨⟨.panicked, ?_⟩, ⟨.panicked, ?_⟩⟩
      · rw [sdFeed_panic ⟨.iend, pal⟩ (.data (x :: rest))
          ⟨.iend, pal⟩ rfl]
      · rw [List.map_cons, sdRunMany_cons_err _ _ _ _ _
          (sdFeed_panic ⟨.iend, pal⟩ (.data [x]) ⟨.iend, pal⟩ rfl)]
    | idat =>
      refine .inl ⟨⟨.idat, pal⟩, [.imageData (x :: rest)],
        (x :: rest).map (fun b => .imageData [b]),
        sdFeed_ok _ _ _ _ rfl, sdUnits_idat _ pal, ?_⟩
      rw [sTokens_unit_bytes]
      simp [sTokens, sTokensOfEvent]
    | ignoredChunk =>
      exact .inl ⟨⟨.ignoredChunk, pal⟩, [], [], sdFeed_ok _ _ _ _ rfl,
        sdUnits_ignored _ pal, rfl⟩
    | ihdr buf =>
      by_cases h13 : buf.length + (rest.length + 1) ≤ 13
      · have hupd : StreamDecoder.update ⟨.ihdr buf, pal⟩
            (.data (x :: rest)) =
            (⟨.ihdr (buf ++ x :: rest), pal⟩, .ok none none) := by
          simp only [StreamDecoder.update]
          rw [if_neg (by simp [ImageHeader.SIZE]; omega)]
        exact .inl ⟨⟨.ihdr (buf ++ x :: rest), pal⟩, [], [],
          sdFeed_ok _ _ _ _ hupd,
          sdUnits_ihdr_ok (x :: rest) buf pal (by simp; omega), rfl⟩
      · have hupd : StreamDecoder.update ⟨.ihdr buf, pal⟩
            (.data (x :: rest)) = (⟨.ihdr buf, pal⟩, .panicked) := by
          simp only [StreamDecoder.update]
          rw [if_pos (by simp [ImageHeader.SIZE]; omega)]
        obtain ⟨sd', hsd'⟩ := sdUnits_ihdr_panic (x :: rest) buf pal
          (by simp; omega) (by simp)
        exact .inr ⟨⟨.panicked, by rw [sdFeed_panic _ _ _ hupd]⟩,
          ⟨.panicked, by rw [hsd']⟩⟩
    | plte =>
      by_cases h768 : pal.data.length + (rest.length + 1) ≤ 768
      · have hupd : StreamDecoder.update ⟨.plte, pal⟩
            (.data (x :: rest)) =
            (⟨.plte, ⟨pal.data ++ x :: rest⟩⟩, .ok none none) := by
          simp only [StreamDecoder.update]
          rw [if_neg (by simp; omega)]
        exact .inl ⟨⟨.plte, ⟨pal.data ++ x :: rest⟩⟩, [], [],
          sdFeed_ok _ _ _ _ hupd,
          sdUnits_plte_ok (x :: rest) pal (by simp; omega), rfl⟩
      · have hupd : StreamDecoder.update ⟨.plte, pal⟩
            (.data (x :: rest)) = (⟨.plte, pal⟩, .panicked) := by
          simp only [StreamDecoder.update]
          rw [if_pos (by simp; omega)]
        obtain ⟨sd', hsd'⟩ := sdUnits_plte_panic (x :: rest) pal
          (by simp; omega) (by simp)
        exact .inr ⟨⟨.panicked, by rw [sdFeed_panic _ _ _ hupd]⟩,
          ⟨.panicked, by rw [hsd']⟩⟩

/-- Helper: feeding a list of well-formed chunk events to the stream
decoder is equivalent, up to stream tokens, to feeding the unit-event form
of its token sequence: either both succeed with the same final state and
token-equal outputs, or both fail. -/
theorem sdRunMany_units (evs : List Dechunker.Event) :
    ∀ d : StreamDecoder, (∀ ev ∈ evs, DEventWF ev) →
    (∃ d' o₁ o₂, sdRunMany d evs = (d', .ok o₁) ∧
      sdRunMany d ((dTokens evs).map unitDEvent) = (d', .ok o₂) ∧
      sTokens o₁ = sTokens o₂) ∨
    ((∃ x, (sdRunMany d evs).2 = .error x) ∧
     (∃ y, (sdRunMany d ((dTokens evs).map unitDEvent)).2 = .error y)) := by
  induction evs with
  | nil => intro d _; exact .inl ⟨d, [], [], rfl, rfl, rfl⟩
  | cons ev evs ih =>
    intro d hWF
    have hcons : dTokens (ev :: evs) = dTokensOfEvent ev ++ dTokens evs := rfl
    have hsplit : (dTokens (ev :: evs)).map unitDEvent =
        (dTokensOfEvent ev).map unitDEvent ++
        (dTokens evs).map unitDEvent := by
      rw [hcons, List.map_append]
    have hrest : ∀ e ∈ evs, DEventWF e := fun e he => hWF e (by simp [he])
    rcases sdFeed_units d ev (hWF ev (by simp)) with
      ⟨d', o₁, o₂, hf, hu, hT⟩ | ⟨⟨x, hx⟩, ⟨y, hy⟩⟩
    · rcases ih d' hrest with
        ⟨d'', p₁, p₂, hr₁, hr₂, hT₂⟩ | ⟨⟨x, hx⟩, ⟨y, hy⟩⟩
      · refine .inl ⟨d'', o₁ ++ p₁, o₂ ++ p₂, ?_, ?_, ?_⟩
        · rw [sdRunMany_cons_ok _ _ _ _ _ hf, hr₁]
          rfl
        · rw [hsplit, sdRunMany_append, hu]
          show ((sdRunMany d' ((dTokens evs).map unitDEvent)).1,
            Except.map (fun os => o₂ ++ os)
              (sdRunMany d' ((dTokens evs).map unitDEvent)).2) = _
          rw [hr₂]
          rfl
        · rw [sTokens_append, sTokens_append, hT, hT₂]
      · refine .inr ⟨⟨x, ?_⟩, ⟨y, ?_⟩⟩
        · rw [sdRunMany_cons_ok _ _ _ _ _ hf]
          show Except.map (fun os => o₁ ++ os) (sdRunMany d' evs).2 = _
          rw [hx, except_map_error]
        · rw [hsplit, sdRunMany_append, hu]
          show Except.map (fun os => o₂ ++ os)
            (sdRunMany d' ((dTokens evs).map unitDEvent)).2 = _
          rw [hy, except_map_error]
    · refine .inr ⟨⟨x, ?_⟩, ⟨y, ?_⟩⟩
      · have hfe : sdFeed d ev = ((sdFeed d ev).1, .error x) := by
          rw [← hx]
        rw [sdRunMany_cons_err _ _ _ _ _ hfe]
      · rw [hsplit, sdRunMany_append]
        have h1 : sdRunMany d ((dTokensOfEvent ev).map unitDEvent) =
            ((sdRunMany d ((dTokensOfEvent ev).map unitDEvent)).1,
             .error y) := by
          rw [← hy]
        rw [h1]

/-- Helper: a slice taken inside a common prefix is the same in both
lists. -/
theorem prefix_slice (F G : List Nat) (e w : Nat) (hp : F <+: G)
    (h : e + w ≤ F.length) :
    (G.drop e).take w = (F.drop e).take w := by
  obtain ⟨t, rfl⟩ := hp
  rw [List.drop_append_eq_append_drop, List.take_append_eq_append_take,
    List.length_drop, show w - (F.length - e) = 0 from by omega,
    List.take_zero, List.append_nil]

/-- Helper: one-step unfolding of the inflater drain loop. -/
theorem infDrainDataAux_succ (f : List Nat → List Nat) (K cap fuel : Nat)
    (s : MZ) (xs : List Nat) :
    infDrainDataAux f K cap (fuel + 1) s xs =
      (match Inflater.update f K cap s (.imageData xs) with
       | (s', .err e) => (s', .error (.lib e))
       | (s', .panicked) => (s', .error .panicked)
       | (s', .ok none out) => (s', .ok out.toList)
       | (s', .ok (some (.imageData rest)) out) =>
         ((infDrainDataAux f K cap fuel s' rest).1,
          (infDrainDataAux f K cap fuel s' rest).2.map
            (fun os => out.toList ++ os))
       | (s', .ok (some _) _) => (s', .error .stuck)) := rfl

/-- Helper: the modelled inflate step on a data event, written as an
explicit equation in the consumed count `n`, the consumed stream `c` and
the window write size `w`. -/
theorem inf_update_data (f : List Nat → List Nat) (K cap : Nat) (s : MZ)
    (xs : List Nat) (n : Nat) (c : List Nat) (w : Nat)
    (hn : n = min xs.length K)
    (hc : c = s.consumed ++ xs.take n)
    (hw : w = min ((f c).length - s.emitted) cap) :
    Inflater.update f K cap s (.imageData xs) =
      (⟨c, s.emitted + w⟩,
       .ok (if n < xs.length then some (.imageData (xs.drop n))
            else if w = cap then some (.imageData []) else none)
           (some (.imageData (((f c).drop s.emitted).take w)))) := by
  subst hn
  subst hc
  subst hw
  simp only [Inflater.update, mzStep, Inflater.handleImageData,
    Inflater.emitStep]
  have hT : ((((f (s.consumed ++ xs.take (min xs.length K))).drop
      s.emitted).take
      (min ((f (s.consumed ++ xs.take (min xs.length K))).length -
        s.emitted) cap))).length =
      min ((f (s.consumed ++ xs.take (min xs.length K))).length -
        s.emitted) cap := by
    rw [List.length_take, List.length_drop]
    omega
  have hlen : (((f (s.consumed ++ xs.take (min xs.length K))).drop
      s.emitted).take
      (min ((f (s.consumed ++ xs.take (min xs.length K))).length -
        s.emitted) cap) ++
      List.replicate
        (cap - min ((f (s.consumed ++ xs.take (min xs.length K))).length -
          s.emitted) cap) 0).length = cap := by
    rw [List.length_append, List.length_replicate, hT]
    omega
  simp only [hlen]
  rw [if_neg (by omega)]
  have htake : (((f (s.consumed ++ xs.take (min xs.length K))).drop
      s.emitted).take
      (min ((f (s.consumed ++ xs.take (min xs.length K))).length -
        s.emitted) cap) ++
      List.replicate
        (cap - min ((f (s.consumed ++ xs.take (min xs.length K))).length -
          s.emitted) cap) 0).take
      (min ((f (s.consumed ++ xs.take (min xs.length K))).length -
        s.emitted) cap) =
      ((f (s.consumed ++ xs.take (min xs.length K))).drop s.emitted).take
        (min ((f (s.consumed ++ xs.take (min xs.length K))).length -
          s.emitted) cap) := by
    rw [List.take_append_of_le_length (le_of_eq hT.symm),
      List.take_take, Nat.min_self]
  rw [htake]

/-- Helper: under a prefix-monotone decompression function, draining one
data event always succeeds, consumes the whole input into the modelled
decompressor, emits every decompressed byte not yet emitted, and leaves the
emitted count at the full decompressed length. -/
theorem infDrain_spec (f : List Nat → List Nat) (K cap : Nat)
    (hK : 0 < K) (hcap : 0 < cap)
    (hmono : ∀ p q, p <+: q → f p <+: f q) :
    ∀ fuel : Nat, ∀ xs : List Nat, ∀ s : MZ,
    mzInv f s →
    xs.length + ((f (s.consumed ++ xs)).length - s.emitted) < fuel →
    ∃ outs, infDrainDataAux f K cap fuel s xs =
      (⟨s.consumed ++ xs, (f (s.consumed ++ xs)).length⟩, .ok outs) ∧
      fTokens outs =
        ((f (s.consumed ++ xs)).drop s.emitted).map FTok.fByte := by
  intro fuel
  induction fuel with
  | zero => intro xs s _ h; exact absurd h (Nat.not_lt_zero _)
  | succ fuel ih =>
    intro xs s hinv hfuel
    obtain ⟨cs, e⟩ := s
    have hinv' : e ≤ (f cs).length := hinv
    have hfuel' : xs.length + ((f (cs ++ xs)).length - e) < fuel + 1 := hfuel
    set n := min xs.length K with hn
    set c := cs ++ xs.take n with hc
    set w := min ((f c).length - e) cap with hw
    have hstep := inf_update_data f K cap ⟨cs, e⟩ xs n c w hn hc hw
    have hFp : f cs <+: f c := hmono cs c (by rw [hc]; exact List.prefix_append _ _)
    have hle : e ≤ (f c).length := le_trans hinv' hFp.length_le
    have hcxs : c ++ xs.drop n = cs ++ xs := by
      rw [hc, List.append_assoc, List.take_append_drop]
    have hFp2 : f c <+: f (cs ++ xs) := hmono _ _ ⟨xs.drop n, hcxs⟩
    have hle2 : (f c).length ≤ (f (cs ++ xs)).length := hFp2.length_le
    show ∃ outs, infDrainDataAux f K cap (fuel + 1) ⟨cs, e⟩ xs =
        (⟨cs ++ xs, (f (cs ++ xs)).length⟩, Except.ok outs) ∧
      fTokens outs = ((f (cs ++ xs)).drop e).map FTok.fByte
    by_cases h1 : n < xs.length
    · have hupd := hstep
      rw [if_pos h1] at hupd
      have hD : infDrainDataAux f K cap (fuel + 1) ⟨cs, e⟩ xs =
          ((infDrainDataAux f K cap fuel ⟨c, e + w⟩ (xs.drop n)).1,
           (infDrainDataAux f K cap fuel ⟨c, e + w⟩ (xs.drop n)).2.map
             (fun os => [.imageData (((f c).drop e).take w)] ++ os)) := by
        rw [infDrainDataAux_succ, hupd]
        rfl
      have hinv2 : mzInv f ⟨c, e + w⟩ := by
        show e + w ≤ (f c).length
        omega
      have hbound : (xs.drop n).length +
          ((f (c ++ xs.drop n)).length - (e + w)) < fuel := by
        rw [hcxs, List.length_drop]
        omega
      obtain ⟨outs', hrun, htok⟩ := ih (xs.drop n) ⟨c, e + w⟩ hinv2 hbound
      have hrun' : infDrainDataAux f K cap fuel ⟨c, e + w⟩ (xs.drop n) =
          (⟨cs ++ xs, (f (cs ++ xs)).length⟩, .ok outs') := by
        rw [← hcxs]
        exact hrun
      have htok' : fTokens outs' =
          ((f (cs ++ xs)).drop (e + w)).map FTok.fByte := by
        rw [← hcxs]
        exact htok
      refine ⟨.imageData (((f c).drop e).take w) :: outs', ?_, ?_⟩
      · rw [hD, hrun']
        rfl
      · have hslice : ((f c).drop e).take w =
            ((f (cs ++ xs)).drop e).take w :=
          (prefix_slice (f c) (f (cs ++ xs)) e w hFp2 (by omega)).symm
        show fTokens ([.imageData (((f c).drop e).take w)] ++ outs') = _
        rw [fTokens_append, htok', hslice]
        have hone : fTokens [Inflater.Event.imageData
            (((f (cs ++ xs)).drop e).take w)] =
            (((f (cs ++ xs)).drop e).take w).map FTok.fByte := by
          simp [fTokens, fTokensOfEvent]
        rw [hone, ← List.map_append]
        congr 1
        rw [show (f (cs ++ xs)).drop (e + w) =
          ((f (cs ++ xs)).drop e).drop w from by rw [List.drop_drop]]
        exact List.take_append_drop w ((f (cs ++ xs)).drop e)
    · have hnx : n = xs.length := by omega
      have hcx : c = cs ++ xs := by rw [hc, hnx, List.take_length]
      rw [hcx] at hle hw hstep
      by_cases h2 : w = cap
      · have hupd := hstep
        rw [if_neg h1, if_pos h2, h2] at hupd
        have hD : infDrainDataAux f K cap (fuel + 1) ⟨cs, e⟩ xs =
            ((infDrainDataAux f K cap fuel ⟨cs ++ xs, e + cap⟩ []).1,
             (infDrainDataAux f K cap fuel ⟨cs ++ xs, e + cap⟩ []).2.map
               (fun os =>
                 [.imageData (((f (cs ++ xs)).drop e).take cap)] ++ os)) := by
          rw [infDrainDataAux_succ, hupd]
          rfl
        have hcaple : cap ≤ (f (cs ++ xs)).length - e := by omega
        have hinv2 : mzInv f ⟨cs ++ xs, e + cap⟩ := by
          show e + cap ≤ (f (cs ++ xs)).length
          omega
        have hbound : ([] : List Nat).length +
            ((f ((cs ++ xs) ++ [])).length - (e + cap)) < fuel := by
          rw [List.append_nil]
          simp only [List.length_nil]
          omega
        obtain ⟨outs', hrun, htok⟩ := ih [] ⟨cs ++ xs, e + cap⟩ hinv2 hbound
        have hrun' : infDrainDataAux f K cap fuel ⟨cs ++ xs, e + cap⟩ [] =
            (⟨cs ++ xs, (f (cs ++ xs)).length⟩, .ok outs') := by
          simpa only [List.append_nil] using hrun
        have htok' : fTokens outs' =
            ((f (cs ++ xs)).drop (e + cap)).map FTok.fByte := by
          simpa only [List.append_nil] using htok
        refine ⟨.imageData (((f (cs ++ xs)).drop e).take cap) :: outs',
          ?_, ?_⟩
        · rw [hD, hrun']
          rfl
        · show fTokens ([.imageData (((f (cs ++ xs)).drop e).take cap)] ++
            outs') = _
          rw [fTokens_append, htok']
          have hone : fTokens [Inflater.Event.imageData
              (((f (cs ++ xs)).drop e).take cap)] =
              (((f (cs ++ xs)).drop e).take cap).map FTok.fByte := by
            simp [fTokens, fTokensOfEvent]
          rw [hone, ← List.map_append]
          congr 1
          rw [show (f (cs ++ xs)).drop (e + cap) =
            ((f (cs ++ xs)).drop e).drop cap from by rw [List.drop_drop]]
          exact List.take_append_drop cap ((f (cs ++ xs)).drop e)
      · have hupd := hstep
        rw [if_neg h1, if_neg h2] at hupd
        have hD : infDrainDataAux f K cap (fuel + 1) ⟨cs, e⟩ xs =
            (⟨cs ++ xs, e + w⟩,
             .ok [.imageData (((f (cs ++ xs)).drop e).take w)]) := by
          rw [infDrainDataAux_succ, hupd]
          rfl
        have hew : e + w = (f (cs ++ xs)).length := by omega
        refine ⟨[.imageData (((f (cs ++ xs)).drop e).take w)], ?_, ?_⟩
        · rw [hD, hew]
        · have hwl : w = ((f (cs ++ xs)).drop e).length := by
            rw [List.length_drop]
            omega
          rw [hwl, List.take_length]
          simp [fTokens, fTokensOfEvent]

/-- Helper: every event of a successful multi-slice drain is
well-formed. -/
theorem drainSlices_WF (ss : List (List Nat)) : ∀ (d : Dechunker.State)
    (evs : List Dechunker.Event), (drainSlices d ss).2 = .ok evs →
    ∀ e ∈ evs, DEventWF e := by
  induction ss with
  | nil =>
    intro d evs h e he
    have h' : (Except.ok [] : Except PErr (List Dechunker.Event)) =
        .ok evs := h
    cases h'
    cases he
  | cons s ss ih =>
    intro d evs h e he
    rcases hds : drainD d s with ⟨d₁, r₁⟩
    cases r₁ with
    | error e₁ =>
      rw [drainSlices_cons_err d s ss d₁ e₁ hds] at h
      exact absurd h (by simp)
    | ok evs₁ =>
      rw [drainSlices_cons_ok d s ss d₁ evs₁ hds] at h
      rcases hq : (drainSlices d₁ ss).2 with e₂ | evs₂
      · rw [hq] at h
        exact absurd h (by simp [Except.map])
      · rw [hq] at h
        simp [Except.map] at h
        subst h
        rcases List.mem_append.1 he with h1 | h2
        · exact drainD_WF d s evs₁ (by rw [hds]) e h1
        · exact ih d₁ evs₂ hq e h2

/-- Helper: every event emitted by one stream-decoder update call on a
well-formed chunk event is well-formed. -/
theorem sdUpdate_out_WF (st : StreamDecoder.State) (pal : Palette)
    (ev : Dechunker.Event) (hWF : DEventWF ev) (d' : StreamDecoder)
    (lo : Option Dechunker.Event) (oe : StreamDecoder.Event)
    (hu : StreamDecoder.update ⟨st, pal⟩ ev = (d', .ok lo (some oe))) :
    SEventWF oe := by
  cases st <;> cases ev <;>
    simp only [StreamDecoder.update] at hu <;>
    (repeat' split at hu) <;>
    (simp at hu) <;>
    (obtain ⟨h1, h2, h3⟩ := hu
     subst h3
     first
       | exact hWF
       | trivial)

/-- Helper: every event of a successful stream-decoder feed on a
well-formed chunk event is well-formed. -/
theorem sdFeed_WF (d : StreamDecoder) (ev : Dechunker.Event)
    (hWF : DEventWF ev) (d' : StreamDecoder)
    (outs : List StreamDecoder.Event) (h : sdFeed d ev = (d', .ok outs)) :
    ∀ oe ∈ outs, SEventWF oe := by
  rcases hu : StreamDecoder.update d ev with ⟨d₁, r⟩
  cases r with
  | err e =>
    rw [sdFeed_err _ _ _ _ hu] at h
    exact absurd h (by simp)
  | panicked =>
    rw [sdFeed_panic _ _ _ hu] at h
    exact absurd h (by simp)
  | ok lo out =>
    have hlo := sdLeftoverNone _ _ _ _ _ hu
    subst hlo
    rw [sdFeed_ok _ _ _ _ hu] at h
    have houts : outs = out.toList := by
      have h2 : (Except.ok out.toList :
          Except PErr (List StreamDecoder.Event)) = .ok outs := congrArg Prod.snd h
      cases h2
      rfl
    subst houts
    intro oe hoe
    cases out with
    | none => cases hoe
    | some oe₁ =>
      have : oe = oe₁ := by
        cases hoe with
        | head => rfl
        | tail _ h3 => cases h3
      subst this
      rcases d with ⟨st, pal⟩
      exact sdUpdate_out_WF st pal ev hWF d₁ none oe hu

/-- Helper: every event of a successful stream-decoder run over well-formed
chunk events is well-formed. -/
theorem sdRunMany_WF (evs : List Dechunker.Event) : ∀ (d : StreamDecoder)
    (outs : List StreamDecoder.Event), (∀ e ∈ evs, DEventWF e) →
    (sdRunMany d evs).2 = .ok outs → ∀ oe ∈ outs, SEventWF oe := by
  induction evs with
  | nil =>
    intro d outs _ h oe hoe
    have h' : (Except.ok [] : Except PErr (List StreamDecoder.Event)) =
        .ok outs := h
    cases h'
    cases hoe
  | cons ev evs ih =>
    intro d outs hWF h oe hoe
    rcases hf : sdFeed d ev with ⟨d₁, r₁⟩
    cases r₁ with
    | error e₁ =>
      rw [sdRunMany_cons_err d ev evs d₁ e₁ hf] at h
      exact absurd h (by simp)
    | ok outs₁ =>
      rw [sdRunMany_cons_ok d ev evs d₁ outs₁ hf] at h
      rcases hq : (sdRunMany d₁ evs).2 with e₂ | outs₂
      · rw [hq] at h
        exact absurd h (by simp [Except.map])
      · rw [hq] at h
        simp [Except.map] at h
        subst h
        rcases List.mem_append.1 hoe with h1 | h2
        · exact sdFeed_WF d ev (hWF ev (by simp)) d₁ outs₁ hf oe h1
        · exact ih d₁ outs₂ (fun e he => hWF e (by simp [he])) hq oe h2

/-- Helper: unfolding of the inflater run on a successful feed. -/
theorem infRunMany_cons_ok (f : List Nat → List Nat) (K cap : Nat) (s : MZ)
    (ev : StreamDecoder.Event) (evs : List StreamDecoder.Event) (s' : MZ)
    (outs : List Inflater.Event) (h : infFeed f K cap s ev = (s', .ok outs)) :
    infRunMany f K cap s (ev :: evs) =
      ((infRunMany f K cap s' evs).1,
       (infRunMany f K cap s' evs).2.map (fun os => outs ++ os)) := by
  show (match infFeed f K cap s ev with
    | (s', Except.error e) => (s', Except.error e)
    | (s', Except.ok outs) =>
      ((infRunMany f K cap s' evs).1,
       (infRunMany f K cap s' evs).2.map (fun os => outs ++ os))) = _
  rw [h]

/-- Helper: unfolding of the inflater run on a failing feed. -/
theorem infRunMany_cons_err (f : List Nat → List Nat) (K cap : Nat) (s : MZ)
    (ev : StreamDecoder.Event) (evs : List StreamDecoder.Event) (s' : MZ)
    (e : PErr) (h : infFeed f K cap s ev = (s', .error e)) :
    infRunMany f K cap s (ev :: evs) = (s', .error e) := by
  show (match infFeed f K cap s ev with
    | (s', Except.error e) => (s', Except.error e)
    | (s', Except.ok outs) =>
      ((infRunMany f K cap s' evs).1,
       (infRunMany f K cap s' evs).2.map (fun os => outs ++ os))) = _
  rw [h]

/-- Helper: the inflater run splits over event-list concatenation. -/
theorem infRunMany_append (f : List Nat → List Nat) (K cap : Nat)
    (evs₁ evs₂ : List StreamDecoder.Event) : ∀ s : MZ,
    infRunMany f K cap s (evs₁ ++ evs₂) =
      (match infRunMany f K cap s evs₁ with
       | (s₁, .error e) => (s₁, .error e)
       | (s₁, .ok outs) =>
         ((infRunMany f K cap s₁ evs₂).1,
          (infRunMany f K cap s₁ evs₂).2.map (fun os => outs ++ os))) := by
  induction evs₁ with
  | nil =>
    intro s
    rw [List.nil_append]
    show infRunMany f K cap s evs₂ =
      ((infRunMany f K cap s evs₂).1,
       Except.map (fun os => [] ++ os) (infRunMany f K cap s evs₂).2)
    rw [show (fun os : List Inflater.Event => [] ++ os) =
      fun os => os from rfl, except_map_id]
  | cons ev evs₁ ih =>
    intro s
    rcases hstep : infFeed f K cap s ev with ⟨s', re⟩
    rcases re with e | outs
    · rw [List.cons_append,
        infRunMany_cons_err f K cap s ev (evs₁ ++ evs₂) s' e hstep,
        infRunMany_cons_err f K cap s ev evs₁ s' e hstep]
    · rw [List.cons_append,
        infRunMany_cons_ok f K cap s ev (evs₁ ++ evs₂) s' outs hstep,
        infRunMany_cons_ok f K cap s ev evs₁ s' outs hstep, ih s']
      cases hx : infRunMany f K cap s' evs₁ with
      | mk s₁ rx =>
        cases rx with
        | error e => simp [hx, Except.map]
        | ok os =>
          cases hy : infRunMany f K cap s₁ evs₂ with
          | mk s₂ ry =>
            cases ry with
            | error e => simp [hx, hy, Except.map]
            | ok os₂ => simp [hx, hy, Except.map, List.append_assoc]

/-- Helper: feeding an image-header event to the inflater passes it
through. -/
theorem infFeed_header (f : List Nat → List Nat) (K cap : Nat) (s : MZ)
    (h : ImageHeader) :
    infFeed f K cap s (.imageHeader h) = (s, .ok [.imageHeader h]) := rfl

/-- Helper: feeding an end event to the inflater passes it through. -/
theorem infFeed_end (f : List Nat → List Nat) (K cap : Nat) (s : MZ) :
    infFeed f K cap s .End = (s, .ok [.End]) := rfl

/-- Helper: feeding a data event to the inflater consumes its bytes and
emits every not-yet-emitted decompressed byte. -/
theorem infFeed_data (f : List Nat → List Nat) (K cap : Nat)
    (hK : 0 < K) (hcap : 0 < cap)
    (hmono : ∀ p q, p <+: q → f p <+: f q) (s : MZ) (xs : List Nat)
    (hinv : mzInv f s) :
    ∃ outs, infFeed f K cap s (.imageData xs) =
      (⟨s.consumed ++ xs, (f (s.consumed ++ xs)).length⟩, .ok outs) ∧
      fTokens outs =
        ((f (s.consumed ++ xs)).drop s.emitted).map FTok.fByte := by
  have h := infDrain_spec f K cap hK hcap hmono
    (xs.length + (f (s.consumed ++ xs)).length + 2) xs s hinv (by omega)
  exact h

/-- Helper: a common prefix followed by the remainder of the longer list is
a suffix of the longer list. -/
theorem prefix_drop_glue (F G : List Nat) (e : Nat) (hp : F <+: G)
    (h : e ≤ F.length) :
    F.drop e ++ G.drop F.length = G.drop e := by
  obtain ⟨t, rfl⟩ := hp
  rw [List.drop_append_eq_append_drop, List.drop_append_eq_append_drop,
    show e - F.length = 0 from by omega,
    show F.length - F.length = 0 from by omega, List.drop_zero,
    List.drop_length, List.nil_append]

/-- Helper: the inflater on per-byte data events reaches the same state and
emits the same byte tokens as on the undivided event. -/
theorem infUnits_data (f : List Nat → List Nat) (K cap : Nat)
    (hK : 0 < K) (hcap : 0 < cap)
    (hmono : ∀ p q, p <+: q → f p <+: f q) (xs : List Nat) : ∀ s : MZ,
    mzInv f s → xs ≠ [] →
    ∃ outs, infRunMany f K cap s (xs.map (fun b => .imageData [b])) =
      (⟨s.consumed ++ xs, (f (s.consumed ++ xs)).length⟩, .ok outs) ∧
      fTokens outs =
        ((f (s.consumed ++ xs)).drop s.emitted).map FTok.fByte := by
  induction xs with
  | nil => intro s _ hne; exact absurd rfl hne
  | cons b rest ih =>
    intro s hinv _
    obtain ⟨outs₁, hf₁, ht₁⟩ := infFeed_data f K cap hK hcap hmono s [b] hinv
    have hinv₁ : mzInv f ⟨s.consumed ++ [b], (f (s.consumed ++ [b])).length⟩ :=
      le_refl _
    have hra : (s.consumed ++ [b]) ++ rest = s.consumed ++ b :: rest := by
      rw [List.append_assoc, List.singleton_append]
    have hpre : f (s.consumed ++ [b]) <+: f (s.consumed ++ b :: rest) :=
      hmono _ _ ⟨rest, hra⟩
    have hpre0 : f s.consumed <+: f (s.consumed ++ [b]) :=
      hmono _ _ (List.prefix_append _ _)
    have hle : s.emitted ≤ (f (s.consumed ++ [b])).length :=
      le_trans hinv hpre0.length_le
    by_cases hr : rest = []
    · subst hr
      rw [List.map_cons, List.map_nil,
        infRunMany_cons_ok f K cap s (.imageData [b]) [] _ outs₁ hf₁]
      refine ⟨outs₁ ++ [], ?_, ?_⟩
      · rfl
      · rw [fTokens_append, ht₁]
        show _ ++ fTokens [] = _
        rw [show fTokens [] = [] from rfl, List.append_nil]
    · obtain ⟨outs₂, hf₂, ht₂⟩ :=
        ih ⟨s.consumed ++ [b], (f (s.consumed ++ [b])).length⟩ hinv₁ hr
      have hf₂' : infRunMany f K cap
          ⟨s.consumed ++ [b], (f (s.consumed ++ [b])).length⟩
          (rest.map (fun b => .imageData [b])) =
          (⟨s.consumed ++ b :: rest,
            (f (s.consumed ++ b :: rest)).length⟩, .ok outs₂) := by
        rw [← hra]
        exact hf₂
      have ht₂' : fTokens outs₂ =
          ((f (s.consumed ++ b :: rest)).drop
            (f (s.consumed ++ [b])).length).map FTok.fByte := by
        rw [← hra]
        exact ht₂
      rw [List.map_cons,
        infRunMany_cons_ok f K cap s (.imageData [b]) _ _ outs₁ hf₁, hf₂']
      refine ⟨outs₁ ++ outs₂, rfl, ?_⟩
      rw [fTokens_append, ht₁, ht₂', ← List.map_append,
        prefix_drop_glue (f (s.consumed ++ [b]))
          (f (s.consumed ++ b :: rest)) s.emitted hpre hle]

/-- Helper: a single-event inflater run is exactly one feed. -/
theorem infRun_single (f : List Nat → List Nat) (K cap : Nat) (s : MZ)
    (ev : StreamDecoder.Event) :
    infRunMany f K cap s [ev] = infFeed f K cap s ev := by
  rcases hf : infFeed f K cap s ev with ⟨s', r⟩
  cases r with
  | error e => rw [infRunMany_cons_err f K cap s ev [] s' e hf]
  | ok outs =>
    rw [infRunMany_cons_ok f K cap s ev [] s' outs hf]
    simp [infRunMany, Except.map]

/-- Helper: feeding one well-formed stream event to the inflater is
equivalent, up to final tokens, to feeding its unit-event fragments: both
succeed with the same final state, token-equal outputs, and the
decompressor invariant preserved. -/
theorem infFeed_units (f : List Nat → List Nat) (K cap : Nat)
    (hK : 0 < K) (hcap : 0 < cap)
    (hmono : ∀ p q, p <+: q → f p <+: f q) (s : MZ)
    (ev : StreamDecoder.Event) (hinv : mzInv f s) (hWF : SEventWF ev) :
    ∃ s' o₁ o₂, infFeed f K cap s ev = (s', .ok o₁) ∧
      infRunMany f K cap s ((sTokensOfEvent ev).map unitSEvent) =
        (s', .ok o₂) ∧
      fTokens o₁ = fTokens o₂ ∧ mzInv f s' := by
  cases ev with
  | imageHeader h =>
    refine ⟨s, [.imageHeader h], [.imageHeader h], infFeed_header f K cap s h,
      ?_, rfl, hinv⟩
    have hu : (sTokensOfEvent (.imageHeader h)).map unitSEvent =
        [.imageHeader h] := rfl
    rw [hu, infRun_single, infFeed_header]
  | End =>
    refine ⟨s, [.End], [.End], infFeed_end f K cap s, ?_, rfl, hinv⟩
    have hu : (sTokensOfEvent .End).map unitSEvent =
        [StreamDecoder.Event.End] := rfl
    rw [hu, infRun_single, infFeed_end]
  | imageData xs =>
    have hne : xs ≠ [] := hWF
    obtain ⟨o₁, hf₁, ht₁⟩ := infFeed_data f K cap hK hcap hmono s xs hinv
    obtain ⟨o₂, hf₂, ht₂⟩ := infUnits_data f K cap hK hcap hmono xs s hinv hne
    have hu : (sTokensOfEvent (.imageData xs)).map unitSEvent =
        xs.map (fun b => StreamDecoder.Event.imageData [b]) := by
      show (xs.map STok.sByte).map unitSEvent = _
      rw [List.map_map]
      rfl
    refine ⟨⟨s.consumed ++ xs, (f (s.consumed ++ xs)).length⟩, o₁, o₂,
      hf₁, ?_, ?_, le_refl _⟩
    · rw [hu, hf₂]
    · rw [ht₁, ht₂]

/-- Helper: running a list of well-formed stream events through the
inflater is equivalent, up to final tokens, to running the unit-event form
of its token sequence: both succeed with the same final state and
token-equal outputs. -/
theorem infRunMany_units (f : List Nat → List Nat) (K cap : Nat)
    (hK : 0 < K) (hcap : 0 < cap)
    (hmono : ∀ p q, p <+: q → f p <+: f q)
    (sevs : List StreamDecoder.Event) : ∀ s : MZ, mzInv f s →
    (∀ ev ∈ sevs, SEventWF ev) →
    ∃ s' o₁ o₂, infRunMany f K cap s sevs = (s', .ok o₁) ∧
      infRunMany f K cap s ((sTokens sevs).map unitSEvent) = (s', .ok o₂) ∧
      fTokens o₁ = fTokens o₂ ∧ mzInv f s' := by
  induction sevs with
  | nil => intro s hinv _; exact ⟨s, [], [], rfl, rfl, rfl, hinv⟩
  | cons ev sevs ih =>
    intro s hinv hWF
    have hcons : sTokens (ev :: sevs) =
        sTokensOfEvent ev ++ sTokens sevs := rfl
    have hsplit : (sTokens (ev :: sevs)).map unitSEvent =
        (sTokensOfEvent ev).map unitSEvent ++
        (sTokens sevs).map unitSEvent := by
      rw [hcons, List.map_append]
    obtain ⟨s₁, o₁, o₂, hf, hu, hT, hinv₁⟩ :=
      infFeed_units f K cap hK hcap hmono s ev hinv (hWF ev (by simp))
    obtain ⟨s₂, p₁, p₂, hr₁, hr₂, hT₂, hinv₂⟩ :=
      ih s₁ hinv₁ (fun e he => hWF e (by simp [he]))
    refine ⟨s₂, o₁ ++ p₁, o₂ ++ p₂, ?_, ?_, ?_, hinv₂⟩
    · rw [infRunMany_cons_ok f K cap s ev sevs s₁ o₁ hf, hr₁]
      rfl
    · rw [hsplit, infRunMany_append, hu]
      show ((infRunMany f K cap s₁ ((sTokens sevs).map unitSEvent)).1,
        Except.map (fun os => o₂ ++ os)
          (infRunMany f K cap s₁ ((sTokens sevs).map unitSEvent)).2) = _
      rw [hr₂]
      rfl
    · rw [fTokens_append, fTokens_append, hT, hT₂]

/-- Helper: a pipeline slice on a failing dechunker drain. -/
theorem pipeSlice_dech_err (f : List Nat → List Nat) (K cap : Nat)
    (p : Pipe) (s : List Nat) (d₁ : Dechunker.State) (e : PErr)
    (hd : drainD p.dech s = (d₁, .error e)) :
    pipeSlice f K cap p s = (⟨d₁, p.sd, p.mz⟩, .error e) := by
  show (match drainD p.dech s with
    | (d', Except.error e) => ((⟨d', p.sd, p.mz⟩ : Pipe), Except.error e)
    | (d', Except.ok devs) =>
      match sdRunMany p.sd devs with
      | (sd', Except.error e) => ((⟨d', sd', p.mz⟩ : Pipe), Except.error e)
      | (sd', Except.ok sevs) =>
        match infRunMany f K cap p.mz sevs with
        | (mz', r) => ((⟨d', sd', mz'⟩ : Pipe), r)) = _
  rw [hd]

/-- Helper: a pipeline slice on a failing stream-decoder run. -/
theorem pipeSlice_sd_err (f : List Nat → List Nat) (K cap : Nat)
    (p : Pipe) (s : List Nat) (d₁ : Dechunker.State)
    (devs : List Dechunker.Event) (sd₁ : StreamDecoder) (e : PErr)
    (hd : drainD p.dech s = (d₁, .ok devs))
    (hs : sdRunMany p.sd devs = (sd₁, .error e)) :
    pipeSlice f K cap p s = (⟨d₁, sd₁, p.mz⟩, .error e) := by
  show (match drainD p.dech s with
    | (d', Except.error e) => ((⟨d', p.sd, p.mz⟩ : Pipe), Except.error e)
    | (d', Except.ok devs) =>
      match sdRunMany p.sd devs with
      | (sd', Except.error e) => ((⟨d', sd', p.mz⟩ : Pipe), Except.error e)
      | (sd', Except.ok sevs) =>
        match infRunMany f K cap p.mz sevs with
        | (mz', r) => ((⟨d', sd', mz'⟩ : Pipe), r)) = _
  rw [hd]
  show (match sdRunMany p.sd devs with
    | (sd', Except.error e) => ((⟨d₁, sd', p.mz⟩ : Pipe), Except.error e)
    | (sd', Except.ok sevs) =>
      match infRunMany f K cap p.mz sevs with
      | (mz', r) => ((⟨d₁, sd', mz'⟩ : Pipe), r)) = _
  rw [hs]

/-- Helper: a pipeline slice on successful dechunker and stream-decoder
runs. -/
theorem pipeSlice_ok (f : List Nat → List Nat) (K cap : Nat)
    (p : Pipe) (s : List Nat) (d₁ : Dechunker.State)
    (devs : List Dechunker.Event) (sd₁ : StreamDecoder)
    (sevs : List StreamDecoder.Event) (mz₁ : MZ)
    (r : Except PErr (List Inflater.Event))
    (hd : drainD p.dech s = (d₁, .ok devs))
    (hs : sdRunMany p.sd devs = (sd₁, .ok sevs))
    (hi : infRunMany f K cap p.mz sevs = (mz₁, r)) :
    pipeSlice f K cap p s = (⟨d₁, sd₁, mz₁⟩, r) := by
  show (match drainD p.dech s with
    | (d', Except.error e) => ((⟨d', p.sd, p.mz⟩ : Pipe), Except.error e)
    | (d', Except.ok devs) =>
      match sdRunMany p.sd devs with
      | (sd', Except.error e) => ((⟨d', sd', p.mz⟩ : Pipe), Except.error e)
      | (sd', Except.ok sevs) =>
        match infRunMany f K cap p.mz sevs with
        | (mz', r) => ((⟨d', sd', mz'⟩ : Pipe), r)) = _
  rw [hd]
  show (match sdRunMany p.sd devs with
    | (sd', Except.error e) => ((⟨d₁, sd', p.mz⟩ : Pipe), Except.error e)
    | (sd', Except.ok sevs) =>
      match infRunMany f K cap p.mz sevs with
      | (mz', r) => ((⟨d₁, sd', mz'⟩ : Pipe), r)) = _
  rw [hs]
  show (match infRunMany f K cap p.mz sevs with
    | (mz', r) => ((⟨d₁, sd₁, mz'⟩ : Pipe), r)) = _
  rw [hi]

/-- Helper: unfolding of the pipeline run on a successful slice. -/
theorem pipeRunFrom_cons_ok (f : List Nat → List Nat) (K cap : Nat)
    (p : Pipe) (s : List Nat) (ss : List (List Nat)) (p₁ : Pipe)
    (evs : List Inflater.Event)
    (h : pipeSlice f K cap p s = (p₁, .ok evs)) :
    pipeRunFrom f K cap p (s :: ss) =
      ((pipeRunFrom f K cap p₁ ss).1,
       (pipeRunFrom f K cap p₁ ss).2.map (fun es => evs ++ es)) := by
  show (match pipeSlice f K cap p s with
    | (p', Except.error e) => (p', Except.error e)
    | (p', Except.ok evs) =>
      ((pipeRunFrom f K cap p' ss).1,
       (pipeRunFrom f K cap p' ss).2.map (fun es => evs ++ es))) = _
  rw [h]

/-- Helper: unfolding of the pipeline run on a failing slice. -/
theorem pipeRunFrom_cons_err (f : List Nat → List Nat) (K cap : Nat)
    (p : Pipe) (s : List Nat) (ss : List (List Nat)) (p₁ : Pipe) (e : PErr)
    (h : pipeSlice f K cap p s = (p₁, .error e)) :
    pipeRunFrom f K cap p (s :: ss) = (p₁, .error e) := by
  show (match pipeSlice f K cap p s with
    | (p', Except.error e) => (p', Except.error e)
    | (p', Except.ok evs) =>
      ((pipeRunFrom f K cap p' ss).1,
       (pipeRunFrom f K cap p' ss).2.map (fun es => evs ++ es))) = _
  rw [h]

/-- Helper: a staged run on a failing multi-slice drain. -/
theorem staged_dech_err (f : List Nat → List Nat) (K cap : Nat)
    (p : Pipe) (ss : List (List Nat)) (d₁ : Dechunker.State) (e : PErr)
    (hd : drainSlices p.dech ss = (d₁, .error e)) :
    staged f K cap p ss = (⟨d₁, p.sd, p.mz⟩, .error e) := by
  show (match drainSlices p.dech ss with
    | (d', Except.error e) => ((⟨d', p.sd, p.mz⟩ : Pipe), Except.error e)
    | (d', Except.ok devs) =>
      match sdRunMany p.sd devs with
      | (sd', Except.error e) => ((⟨d', sd', p.mz⟩ : Pipe), Except.error e)
      | (sd', Except.ok sevs) =>
        match infRunMany f K cap p.mz sevs with
        | (mz', r) => ((⟨d', sd', mz'⟩ : Pipe), r)) = _
  rw [hd]

/-- Helper: a staged run on a failing stream-decoder stage. -/
theorem staged_sd_err (f : List Nat → List Nat) (K cap : Nat)
    (p : Pipe) (ss : List (List Nat)) (d₁ : Dechunker.State)
    (devs : List Dechunker.Event) (sd₁ : StreamDecoder) (e : PErr)
    (hd : drainSlices p.dech ss = (d₁, .ok devs))
    (hs : sdRunMany p.sd devs = (sd₁, .error e)) :
    staged f K cap p ss = (⟨d₁, sd₁, p.mz⟩, .error e) := by
  show (match drainSlices p.dech ss with
    | (d', Except.error e) => ((⟨d', p.sd, p.mz⟩ : Pipe), Except.error e)
    | (d', Except.ok devs) =>
      match sdRunMany p.sd devs with
      | (sd', Except.error e) => ((⟨d', sd', p.mz⟩ : Pipe), Except.error e)
      | (sd', Except.ok sevs) =>
        match infRunMany f K cap p.mz sevs with
        | (mz', r) => ((⟨d', sd', mz'⟩ : Pipe), r)) = _
  rw [hd]
  show (match sdRunMany p.sd devs with
    | (sd', Except.error e) => ((⟨d₁, sd', p.mz⟩ : Pipe), Except.error e)
    | (sd', Except.ok sevs) =>
      match infRunMany f K cap p.mz sevs with
      | (mz', r) => ((⟨d₁, sd', mz'⟩ : Pipe), r)) = _
  rw [hs]

/-- Helper: a staged run on successful drain and stream-decoder stages. -/
theorem staged_ok (f : List Nat → List Nat) (K cap : Nat)
    (p : Pipe) (ss : List (List Nat)) (d₁ : Dechunker.State)
    (devs : List Dechunker.Event) (sd₁ : StreamDecoder)
    (sevs : List StreamDecoder.Event) (mz₁ : MZ)
    (r : Except PErr (List Inflater.Event))
    (hd : drainSlices p.dech ss = (d₁, .ok devs))
    (hs : sdRunMany p.sd devs = (sd₁, .ok sevs))
    (hi : infRunMany f K cap p.mz sevs = (mz₁, r)) :
    staged f K cap p ss = (⟨d₁, sd₁, mz₁⟩, r) := by
  show (match drainSlices p.dech ss with
    | (d', Except.error e) => ((⟨d', p.sd, p.mz⟩ : Pipe), Except.error e)
    | (d', Except.ok devs) =>
      match sdRunMany p.sd devs with
      | (sd', Except.error e) => ((⟨d', sd', p.mz⟩ : Pipe), Except.error e)
      | (sd', Except.ok sevs) =>
        match infRunMany f K cap p.mz sevs with
        | (mz', r) => ((⟨d', sd', mz'⟩ : Pipe), r)) = _
  rw [hd]
  show (match sdRunMany p.sd devs with
    | (sd', Except.error e) => ((⟨d₁, sd', p.mz⟩ : Pipe), Except.error e)
    | (sd', Except.ok sevs) =>
      match infRunMany f K cap p.mz sevs with
      | (mz', r) => ((⟨d₁, sd', mz'⟩ : Pipe), r)) = _
  rw [hs]
  show (match infRunMany f K cap p.mz sevs with
    | (mz', r) => ((⟨d₁, sd₁, mz'⟩ : Pipe), r)) = _
  rw [hi]

/-- Helper: after one fully successful slice, the staged run on the
remaining slices continues from the advanced state; its output is prefixed
by the slice's events, and on success the final states agree. -/
theorem staged_cons (f : List Nat → List Nat) (K cap : Nat)
    (p : Pipe) (s : List Nat) (ss : List (List Nat))
    (d₁ : Dechunker.State) (devs₁ : List Dechunker.Event)
    (sd₁ : StreamDecoder) (sevs₁ : List StreamDecoder.Event) (mz₁ : MZ)
    (fevs₁ : List Inflater.Event)
    (hd : drainD p.dech s = (d₁, .ok devs₁))
    (hs : sdRunMany p.sd devs₁ = (sd₁, .ok sevs₁))
    (hi : infRunMany f K cap p.mz sevs₁ = (mz₁, .ok fevs₁)) :
    (staged f K cap p (s :: ss)).2 =
      (staged f K cap ⟨d₁, sd₁, mz₁⟩ ss).2.map (fun es => fevs₁ ++ es) ∧
    (∀ E, (staged f K cap ⟨d₁, sd₁, mz₁⟩ ss).2 = .ok E →
      (staged f K cap p (s :: ss)).1 =
        (staged f K cap ⟨d₁, sd₁, mz₁⟩ ss).1) := by
  rcases hds : drainSlices d₁ ss with ⟨d₂, rds⟩
  cases rds with
  | error e₂ =>
    have hdsl : drainSlices p.dech (s :: ss) = (d₂, .error e₂) := by
      rw [drainSlices_cons_ok p.dech s ss d₁ devs₁ hd, hds]
      rfl
    rw [staged_dech_err f K cap p (s :: ss) d₂ e₂ hdsl,
      staged_dech_err f K cap ⟨d₁, sd₁, mz₁⟩ ss d₂ e₂ hds]
    exact ⟨rfl, fun E hE => absurd hE (by simp)⟩
  | ok devs₂ =>
    have hdsl : drainSlices p.dech (s :: ss) = (d₂, .ok (devs₁ ++ devs₂)) := by
      rw [drainSlices_cons_ok p.dech s ss d₁ devs₁ hd, hds]
      rfl
    rcases hsd₂ : sdRunMany sd₁ devs₂ with ⟨sd₂, rsd₂⟩
    cases rsd₂ with
    | error e₂ =>
      have hsd : sdRunMany p.sd (devs₁ ++ devs₂) = (sd₂, .error e₂) := by
        rw [sdRunMany_append devs₁ devs₂ p.sd, hs]
        show ((sdRunMany sd₁ devs₂).1,
          Except.map (fun os => sevs₁ ++ os) (sdRunMany sd₁ devs₂).2) = _
        rw [hsd₂]
        rfl
      rw [staged_sd_err f K cap p (s :: ss) d₂ _ sd₂ e₂ hdsl hsd,
        staged_sd_err f K cap ⟨d₁, sd₁, mz₁⟩ ss d₂ _ sd₂ e₂ hds hsd₂]
      exact ⟨rfl, fun E hE => absurd hE (by simp)⟩
    | ok sevs₂ =>
      have hsd : sdRunMany p.sd (devs₁ ++ devs₂) =
          (sd₂, .ok (sevs₁ ++ sevs₂)) := by
        rw [sdRunMany_append devs₁ devs₂ p.sd, hs]
        show ((sdRunMany sd₁ devs₂).1,
          Except.map (fun os => sevs₁ ++ os) (sdRunMany sd₁ devs₂).2) = _
        rw [hsd₂]
        rfl
      rcases hi₂ : infRunMany f K cap mz₁ sevs₂ with ⟨mz₂, ri₂⟩
      have hinf : infRunMany f K cap p.mz (sevs₁ ++ sevs₂) =
          (mz₂, ri₂.map (fun os => fevs₁ ++ os)) := by
        rw [infRunMany_append f K cap sevs₁ sevs₂ p.mz, hi]
        show ((infRunMany f K cap mz₁ sevs₂).1,
          Except.map (fun os => fevs₁ ++ os)
            (infRunMany f K cap mz₁ sevs₂).2) = _
        rw [hi₂]
      rw [staged_ok f K cap p (s :: ss) d₂ _ sd₂ _ mz₂ _ hdsl hsd hinf,
        staged_ok f K cap ⟨d₁, sd₁, mz₁⟩ ss d₂ _ sd₂ _ mz₂ _ hds hsd₂ hi₂]
      exact ⟨rfl, fun E hE => rfl⟩

/-- Helper: the interleaved pipeline run and the staged run agree: on
success they return the same state and events, otherwise both fail. -/
theorem pipeRunFrom_staged (f : List Nat → List Nat) (K cap : Nat)
    (ss : List (List Nat)) : ∀ p : Pipe,
    (∃ p' E, pipeRunFrom f K cap p ss = (p', .ok E) ∧
             staged f K cap p ss = (p', .ok E)) ∨
    ((∃ e, (pipeRunFrom f K cap p ss).2 = .error e) ∧
     (∃ e, (staged f K cap p ss).2 = .error e)) := by
  induction ss with
  | nil => intro p; exact .inl ⟨p, [], rfl, rfl⟩
  | cons s ss ih =>
    intro p
    rcases hd : drainD p.dech s with ⟨d₁, rd⟩
    cases rd with
    | error e =>
      have hps := pipeSlice_dech_err f K cap p s d₁ e hd
      have hdsl : drainSlices p.dech (s :: ss) = (d₁, .error e) :=
        drainSlices_cons_err p.dech s ss d₁ e hd
      exact .inr ⟨⟨e, by rw [pipeRunFrom_cons_err f K cap p s ss _ e hps]⟩,
        ⟨e, by rw [staged_dech_err f K cap p (s :: ss) d₁ e hdsl]⟩⟩
    | ok devs₁ =>
      rcases hs : sdRunMany p.sd devs₁ with ⟨sd₁, rs⟩
      cases rs with
      | error e =>
        have hps := pipeSlice_sd_err f K cap p s d₁ devs₁ sd₁ e hd hs
        refine .inr ⟨⟨e,
          by rw [pipeRunFrom_cons_err f K cap p s ss _ e hps]⟩, ?_⟩
        rcases hds : drainSlices d₁ ss with ⟨d₂, rds⟩
        cases rds with
        | error e₂ =>
          have hdsl : drainSlices p.dech (s :: ss) = (d₂, .error e₂) := by
            rw [drainSlices_cons_ok p.dech s ss d₁ devs₁ hd, hds]
            rfl
          exact ⟨e₂, by rw [staged_dech_err f K cap p (s :: ss) d₂ e₂ hdsl]⟩
        | ok devs₂ =>
          have hdsl : drainSlices p.dech (s :: ss) =
              (d₂, .ok (devs₁ ++ devs₂)) := by
            rw [drainSlices_cons_ok p.dech s ss d₁ devs₁ hd, hds]
            rfl
          have hsd : sdRunMany p.sd (devs₁ ++ devs₂) = (sd₁, .error e) := by
            rw [sdRunMany_append devs₁ devs₂ p.sd, hs]
          exact ⟨e,
            by rw [staged_sd_err f K cap p (s :: ss) d₂ _ sd₁ e hdsl hsd]⟩
      | ok sevs₁ =>
        rcases hi : infRunMany f K cap p.mz sevs₁ with ⟨mz₁, ri⟩
        have hps := pipeSlice_ok f K cap p s d₁ devs₁ sd₁ sevs₁ mz₁ ri hd hs hi
        cases ri with
        | error e =>
          refine .inr ⟨⟨e,
            by rw [pipeRunFrom_cons_err f K cap p s ss _ e hps]⟩, ?_⟩
          rcases hds : drainSlices d₁ ss with ⟨d₂, rds⟩
          cases rds with
          | error e₂ =>
            have hdsl : drainSlices p.dech (s :: ss) = (d₂, .error e₂) := by
              rw [drainSlices_cons_ok p.dech s ss d₁ devs₁ hd, hds]
              rfl
            exact ⟨e₂,
              by rw [staged_dech_err f K cap p (s :: ss) d₂ e₂ hdsl]⟩
          | ok devs₂ =>
            have hdsl : drainSlices p.dech (s :: ss) =
                (d₂, .ok (devs₁ ++ devs₂)) := by
              rw [drainSlices_cons_ok p.dech s ss d₁ devs₁ hd, hds]
              rfl
            rcases hsd₂ : sdRunMany sd₁ devs₂ with ⟨sd₂, rsd₂⟩
            cases rsd₂ with
            | error e₂ =>
              have hsd : sdRunMany p.sd (devs₁ ++ devs₂) =
                  (sd₂, .error e₂) := by
                rw [sdRunMany_append devs₁ devs₂ p.sd, hs]
                show ((sdRunMany sd₁ devs₂).1,
                  Except.map (fun os => sevs₁ ++ os)
                    (sdRunMany sd₁ devs₂).2) = _
                rw [hsd₂]
                rfl
              exact ⟨e₂, by rw [staged_sd_err f K cap p (s :: ss)
                d₂ _ sd₂ e₂ hdsl hsd]⟩
            | ok sevs₂ =>
              have hsd : sdRunMany p.sd (devs₁ ++ devs₂) =
                  (sd₂, .ok (sevs₁ ++ sevs₂)) := by
                rw [sdRunMany_append devs₁ devs₂ p.sd, hs]
                show ((sdRunMany sd₁ devs₂).1,
                  Except.map (fun os => sevs₁ ++ os)
                    (sdRunMany sd₁ devs₂).2) = _
                rw [hsd₂]
                rfl
              have hinf : infRunMany f K cap p.mz (sevs₁ ++ sevs₂) =
                  (mz₁, .error e) := by
                rw [infRunMany_append f K cap sevs₁ sevs₂ p.mz, hi]
              exact ⟨e, by rw [staged_ok f K cap p (s :: ss)
                d₂ _ sd₂ _ mz₁ _ hdsl hsd hinf]⟩
        | ok fevs₁ =>
          obtain ⟨hsnd, hfst⟩ :=
            staged_cons f K cap p s ss d₁ devs₁ sd₁ sevs₁ mz₁ fevs₁ hd hs hi
          rcases ih ⟨d₁, sd₁, mz₁⟩ with ⟨p'', E, hre, hst⟩ |
            ⟨⟨e₁, he₁⟩, ⟨e₂, he₂⟩⟩
          · left
            refine ⟨p'', fevs₁ ++ E, ?_, ?_⟩
            · rw [pipeRunFrom_cons_ok f K cap p s ss ⟨d₁, sd₁, mz₁⟩ fevs₁
                hps, hre]
              rfl
            · have h2 : (staged f K cap ⟨d₁, sd₁, mz₁⟩ ss).2 = .ok E := by
                rw [hst]
              have h1 : (staged f K cap p (s :: ss)).1 = p'' := by
                rw [hfst E h2, hst]
              have h3 : (staged f K cap p (s :: ss)).2 =
                  .ok (fevs₁ ++ E) := by
                rw [hsnd, h2]
                rfl
              calc staged f K cap p (s :: ss)
                  = ((staged f K cap p (s :: ss)).1,
                     (staged f K cap p (s :: ss)).2) := rfl
                _ = (p'', .ok (fevs₁ ++ E)) := by rw [h1, h3]
          · right
            refine ⟨⟨e₁, ?_⟩, ⟨e₂, ?_⟩⟩
            · rw [pipeRunFrom_cons_ok f K cap p s ss ⟨d₁, sd₁, mz₁⟩ fevs₁
                hps]
              show Except.map (fun es => fevs₁ ++ es)
                (pipeRunFrom f K cap ⟨d₁, sd₁, mz₁⟩ ss).2 = _
              rw [he₁, except_map_error]
            · rw [hsnd, he₂, except_map_error]

/-- Helper: the canonical run on a failing dechunker reference run. -/
theorem canon_dech_err (f : List Nat → List Nat) (K cap : Nat)
    (bytes : List Nat) (d : Dechunker.State) (e : PErr)
    (h : runB Dechunker.new bytes = (d, .error e)) :
    canonRun f K cap bytes = .error e := by
  show (match runB Dechunker.new bytes with
    | (_, Except.error e) => Except.error e
    | (_, Except.ok dt) =>
      match sdRunMany StreamDecoder.new (dt.map unitDEvent) with
      | (_, Except.error e) => Except.error e
      | (_, Except.ok sevs) =>
        match infRunMany f K cap MZ.new ((sTokens sevs).map unitSEvent) with
        | (_, Except.error e) => Except.error e
        | (_, Except.ok fevs) => Except.ok (fTokens fevs)) = _
  rw [h]

/-- Helper: the canonical run on a failing unit stream-decoder run. -/
theorem canon_sd_err (f : List Nat → List Nat) (K cap : Nat)
    (bytes : List Nat) (d : Dechunker.State) (dt : List DTok)
    (sd : StreamDecoder) (e : PErr)
    (h : runB Dechunker.new bytes = (d, .ok dt))
    (h2 : sdRunMany StreamDecoder.new (dt.map unitDEvent) =
      (sd, .error e)) :
    canonRun f K cap bytes = .error e := by
  show (match runB Dechunker.new bytes with
    | (_, Except.error e) => Except.error e
    | (_, Except.ok dt) =>
      match sdRunMany StreamDecoder.new (dt.map unitDEvent) with
      | (_, Except.error e) => Except.error e
      | (_, Except.ok sevs) =>
        match infRunMany f K cap MZ.new ((sTokens sevs).map unitSEvent) with
        | (_, Except.error e) => Except.error e
        | (_, Except.ok fevs) => Except.ok (fTokens fevs)) = _
  rw [h]
  show (match sdRunMany StreamDecoder.new (dt.map unitDEvent) with
    | (_, Except.error e) => Except.error e
    | (_, Except.ok sevs) =>
      match infRunMany f K cap MZ.new ((sTokens sevs).map unitSEvent) with
      | (_, Except.error e) => Except.error e
      | (_, Except.ok fevs) => Except.ok (fTokens fevs)) = _
  rw [h2]

/-- Helper: the canonical run on fully successful stages. -/
theorem canon_ok (f : List Nat → List Nat) (K cap : Nat)
    (bytes : List Nat) (d : Dechunker.State) (dt : List DTok)
    (sd : StreamDecoder) (sevs : List StreamDecoder.Event) (mz : MZ)
    (fevs : List Inflater.Event)
    (h : runB Dechunker.new bytes = (d, .ok dt))
    (h2 : sdRunMany StreamDecoder.new (dt.map unitDEvent) = (sd, .ok sevs))
    (h3 : infRunMany f K cap MZ.new ((sTokens sevs).map unitSEvent) =
      (mz, .ok fevs)) :
    canonRun f K cap bytes = .ok (fTokens fevs) := by
  show (match runB Dechunker.new bytes with
    | (_, Except.error e) => Except.error e
    | (_, Except.ok dt) =>
      match sdRunMany StreamDecoder.new (dt.map unitDEvent) with
      | (_, Except.error e) => Except.error e
      | (_, Except.ok sevs) =>
        match infRunMany f K cap MZ.new ((sTokens sevs).map unitSEvent) with
        | (_, Except.error e) => Except.error e
        | (_, Except.ok fevs) => Except.ok (fTokens fevs)) = _
  rw [h]
  show (match sdRunMany StreamDecoder.new (dt.map unitDEvent) with
    | (_, Except.error e) => Except.error e
    | (_, Except.ok sevs) =>
      match infRunMany f K cap MZ.new ((sTokens sevs).map unitSEvent) with
      | (_, Except.error e) => Except.error e
      | (_, Except.ok fevs) => Except.ok (fTokens fevs)) = _
  rw [h2]
  show (match infRunMany f K cap MZ.new ((sTokens sevs).map unitSEvent) with
    | (_, Except.error e) => Except.error e
    | (_, Except.ok fevs) => Except.ok (fTokens fevs)) = _
  rw [h3]

/-- Helper: any sliced pipeline run agrees with the canonical run of the
concatenated bytes: on success the final tokens equal the canonical tokens,
otherwise both fail. -/
theorem pipeRun_tokens (f : List Nat → List Nat) (K cap : Nat)
    (hK : 0 < K) (hcap : 0 < cap)
    (hmono : ∀ p q, p <+: q → f p <+: f q) (ss : List (List Nat)) :
    (∃ E T, pipeRun f K cap ss = .ok E ∧
       canonRun f K cap ss.flatten = .ok T ∧ fTokens E = T) ∨
    ((∃ e, pipeRun f K cap ss = .error e) ∧
     (∃ e, canonRun f K cap ss.flatten = .error e)) := by
  have hInv0 : DInv Dechunker.new := by
    show (0 : Nat) < 8
    decide
  have hmz0 : mzInv f MZ.new := Nat.zero_le _
  rcases pipeRunFrom_staged f K cap ss Pipe.init with
    ⟨p', E, hre, hst⟩ | ⟨⟨e₁, he₁⟩, ⟨e₂, he₂⟩⟩
  · rcases hds : drainSlices Dechunker.new ss with ⟨d₂, rds⟩
    cases rds with
    | error e =>
      rw [staged_dech_err f K cap Pipe.init ss d₂ e hds] at hst
      exact absurd hst (by simp)
    | ok devs =>
      rcases hsd : sdRunMany StreamDecoder.new devs with ⟨sd₂, rsd⟩
      cases rsd with
      | error e =>
        rw [staged_sd_err f K cap Pipe.init ss d₂ devs sd₂ e hds hsd] at hst
        exact absurd hst (by simp)
      | ok sevs =>
        rcases hinf : infRunMany f K cap MZ.new sevs with ⟨mz₂, rif⟩
        rw [staged_ok f K cap Pipe.init ss d₂ devs sd₂ sevs mz₂ rif
          hds hsd hinf] at hst
        have hrif : rif = .ok E := congrArg Prod.snd hst
        subst hrif
        have hdr := drainSlices_runB ss Dechunker.new hInv0
        rcases hq : runB Dechunker.new ss.flatten with ⟨dq, rq⟩
        rw [hds, hq] at hdr
        rcases hdr with ⟨hds1, hds2⟩ | ⟨⟨e, he⟩, _⟩
        swap
        · exact absurd he (by simp)
        have hrq : rq = .ok (dTokens devs) := hds2.symm
        subst hrq
        have hWFd : ∀ e ∈ devs, DEventWF e :=
          drainSlices_WF ss Dechunker.new devs (by rw [hds])
        rcases sdRunMany_units devs StreamDecoder.new hWFd with
          ⟨d', o₁, o₂, hb, hu, hTt⟩ | ⟨⟨x, hx⟩, _⟩
        swap
        · rw [hsd] at hx
          exact absurd hx (by simp)
        rw [hsd] at hb
        have hd' : sd₂ = d' := congrArg Prod.fst hb
        have ho₁ : sevs = o₁ := by
          have h5 : (Except.ok sevs : Except PErr _) = .ok o₁ :=
            congrArg Prod.snd hb
          simpa using h5
        subst hd'
        subst ho₁
        have hWFs : ∀ ev ∈ sevs, SEventWF ev :=
          sdRunMany_WF devs StreamDecoder.new sevs hWFd (by rw [hsd])
        obtain ⟨s', i₁, i₂, hib, hiu, hiT, _⟩ :=
          infRunMany_units f K cap hK hcap hmono sevs MZ.new hmz0 hWFs
        rw [hinf] at hib
        have hi₁ : E = i₁ := by
          have h5 : (Except.ok E : Except PErr _) = .ok i₁ :=
            congrArg Prod.snd hib
          simpa using h5
        subst hi₁
        have hiu' : infRunMany f K cap MZ.new
            ((sTokens o₂).map unitSEvent) = (s', .ok i₂) := by
          rw [← hTt]
          exact hiu
        left
        refine ⟨E, fTokens i₂, ?_, ?_, ?_⟩
        · show (pipeRunFrom f K cap Pipe.init ss).2 = _
          rw [hre]
        · exact canon_ok f K cap ss.flatten dq (dTokens devs) sd₂ o₂ s' i₂
            hq hu hiu'
        · rw [hiT]
  · right
    refine ⟨⟨e₁, he₁⟩, ?_⟩
    rcases hds : drainSlices Dechunker.new ss with ⟨d₂, rds⟩
    have hdr := drainSlices_runB ss Dechunker.new hInv0
    rcases hq : runB Dechunker.new ss.flatten with ⟨dq, rq⟩
    rw [hds, hq] at hdr
    cases rds with
    | error e =>
      have hrqe : ∃ e', rq = .error e' := by
        rcases hdr with ⟨h1, h2⟩ | ⟨_, ⟨e', he'⟩⟩
        · cases rq with
          | error e' => exact ⟨e', rfl⟩
          | ok t => exact absurd h2 (by simp [Except.map])
        · cases rq with
          | error e' => exact ⟨e', rfl⟩
          | ok t => simp at he'
      obtain ⟨e', rfl⟩ := hrqe
      exact ⟨e', canon_dech_err f K cap ss.flatten dq e' hq⟩
    | ok devs =>
      rcases hdr with ⟨h1, h2⟩ | ⟨⟨e', he'⟩, _⟩
      swap
      · exact absurd he' (by simp)
      have hrq : rq = .ok (dTokens devs) := h2.symm
      subst hrq
      have hWFd : ∀ e ∈ devs, DEventWF e :=
        drainSlices_WF ss Dechunker.new devs (by rw [hds])
      rcases hsd : sdRunMany StreamDecoder.new devs with ⟨sd₂, rsd⟩
      cases rsd with
      | error e =>
        rcases sdRunMany_units devs StreamDecoder.new hWFd with
          ⟨d', o₁, o₂, hb, hu, hTt⟩ | ⟨_, ⟨y, hy⟩⟩
        · rw [hsd] at hb
          exact absurd hb (by simp)
        · rcases hu2 : sdRunMany StreamDecoder.new
            ((dTokens devs).map unitDEvent) with ⟨sdu, ru⟩
          rw [hu2] at hy
          have hru : ru = .error y := hy
          subst hru
          exact ⟨y, canon_sd_err f K cap ss.flatten dq (dTokens devs)
            sdu y hq hu2⟩
      | ok sevs =>
        have hWFs : ∀ ev ∈ sevs, SEventWF ev :=
          sdRunMany_WF devs StreamDecoder.new sevs hWFd (by rw [hsd])
        obtain ⟨s', i₁, i₂, hib, hiu, hiT, _⟩ :=
          infRunMany_units f K cap hK hcap hmono sevs MZ.new hmz0 hWFs
        rw [staged_ok f K cap Pipe.init ss d₂ devs sd₂ sevs s' (.ok i₁)
          hds hsd hib] at he₂
        exact absurd he₂ (by simp)

/-- C1 (fragmentation invariance): feeding a byte stream through the
three-layer pipeline (`Dechunker::update`, then `StreamDecoder::update`,
then `Inflater::update`, draining leftovers at each layer) split into any
sequence of slices yields, whenever feeding it as one whole slice
succeeds, a successful run whose final events carry the identical ordered
token sequence — the parsed header, the concatenated decompressed data
bytes, and the end marker.  The external decompressor is modelled by any
prefix-monotone decompression function with positive per-call input
consumption and positive output-window capacity. -/
theorem pipeline_fragmentation_invariance (f : List Nat → List Nat)
    (K cap : Nat) (hK : 0 < K) (hcap : 0 < cap)
    (hmono : ∀ p q, p <+: q → f p <+: f q)
    (slices : List (List Nat)) (E : List Inflater.Event)
    (hwhole : pipeRun f K cap [slices.flatten] = .ok E) :
    ∃ E', pipeRun f K cap slices = .ok E' ∧ fTokens E' = fTokens E := by
  have h1 := pipeRun_tokens f K cap hK hcap hmono [slices.flatten]
  have h2 := pipeRun_tokens f K cap hK hcap hmono slices
  have hfl : ([slices.flatten] : List (List Nat)).flatten =
      slices.flatten := by
    simp
  rw [hfl] at h1
  rcases h1 with ⟨E₁, T, hok₁, hcanon, hT₁⟩ | ⟨⟨e, he⟩, _⟩
  · have hEE : E₁ = E := by
      rw [hwhole] at hok₁
      simpa using hok₁.symm
    subst hEE
    rcases h2 with ⟨E', T', hok₂, hcanon', hT₂⟩ | ⟨_, ⟨e₂, hce⟩⟩
    · have hTT : T' = T := by
        rw [hcanon] at hcanon'
        simpa using hcanon'.symm
      exact ⟨E', hok₂, by rw [hT₂, hTT, ← hT₁]⟩
    · rw [hcanon] at hce
      exact absurd hce (by simp)
  · rw [hwhole] at he
    exact absurd he (by simp)

set_option maxHeartbeats 4000000 in
set_option maxRecDepth 8192 in
/-- Witness for C1: a concrete 59-byte PNG stream (signature, a 13-byte
IHDR, a 2-byte IDAT, IEND) fed through the pipeline in ten uneven slices
yields the same final tokens as fed whole, with the identity function as
the modelled decompressor. -/
theorem pipeline_fragmentation_invariance_witness :
    ∃ E', pipeRun id 3 4
        [[0x89], [0x50, 0x4E], [], [0x47, 0x0D, 0x0A, 0x1A, 0x0A, 0, 0, 0],
         [13, 73], [72, 68, 82, 0, 0, 0, 1, 0, 0, 0, 1, 8, 0],
         [0, 0, 0, 9, 9], [9, 9, 0, 0, 0, 2, 73, 68, 65, 84, 7],
         [8, 9, 9, 9, 9, 0, 0, 0, 0, 73, 69, 78, 68, 9, 9], [9, 9]] =
        .ok E' ∧
      fTokens E' = fTokens [.imageHeader ⟨1, 1, 8, 0, 0, 0, 0⟩,
        .imageData [7, 8], .End] :=
  pipeline_fragmentation_invariance id 3 4 (by decide) (by decide)
    (fun p q h => h)
    [[0x89], [0x50, 0x4E], [], [0x47, 0x0D, 0x0A, 0x1A, 0x0A, 0, 0, 0],
     [13, 73], [72, 68, 82, 0, 0, 0, 1, 0, 0, 0, 1, 8, 0],
     [0, 0, 0, 9, 9], [9, 9, 0, 0, 0, 2, 73, 68, 65, 84, 7],
     [8, 9, 9, 9, 9, 0, 0, 0, 0, 73, 69, 78, 68, 9, 9], [9, 9]]
    [.imageHeader ⟨1, 1, 8, 0, 0, 0, 0⟩, .imageData [7, 8], .End]
    (by rfl)
